import Mathlib

/-!
Verification development for the virtual-memory subsystem of a small
RISC-V teaching kernel (`src/os4/src/mm/page_table.rs` and
`src/os4/src/syscall/process.rs`).

Machine integers (`usize` on a 64-bit target) are embedded as `Nat` with
explicit `% 2 ^ 64` at the points where the Rust code can wrap
(the left shift in `PageTableEntry::new`).  Physical memory is embedded as
a function from physical page number and entry index to raw entry bits;
the byte view used by `copyout` is a function from physical page number
and byte offset to byte value.  Panics (`unwrap`, `assert!`, out-of-range
slice indexing) are embedded as `Option`, with `none` for the panic.
-/

/-- Modulus of the 64-bit machine word (`usize` on the rv64 target). -/
def USIZE : Nat := 2 ^ 64

/-- Page size in bytes.  Modelled from the spec (§3): the `config` module is
not part of the source under review; the reference layout is 4096-byte pages
with 9 index bits per level. -/
def PAGE_SIZE : Nat := 4096

/-- Flag bit `PTEFlags::V` (valid). -/
def PTEFlags.V : Nat := 1 <<< 0
/-- Flag bit `PTEFlags::R` (readable). -/
def PTEFlags.R : Nat := 1 <<< 1
/-- Flag bit `PTEFlags::W` (writable). -/
def PTEFlags.W : Nat := 1 <<< 2
/-- Flag bit `PTEFlags::X` (executable). -/
def PTEFlags.X : Nat := 1 <<< 3
/-- Flag bit `PTEFlags::U` (user accessible). -/
def PTEFlags.U : Nat := 1 <<< 4

/-- Embedding of `bitflags` `PTEFlags::from_bits` on a `u8` value: all 8 bits
of the flags byte are defined flags (`V R W X U G A D`), so the defined mask
is `255`; `from_bits` succeeds exactly when no undefined bit is set. -/
def PTEFlags.from_bits (b : Nat) : Option Nat :=
  if b &&& 255 = b then some b else none

/-- Embedding of `PageTableEntry { bits: usize }`. -/
structure PageTableEntry where
  bits : Nat
deriving DecidableEq

/-- Embedding of `PageTableEntry::new`: `bits: ppn.0 << 10 | flags.bits as usize`,
with the 64-bit wrap of the shift made explicit. -/
def PageTableEntry.new (ppn flags : Nat) : PageTableEntry :=
  ⟨((ppn <<< 10) % USIZE) ||| flags⟩

/-- Embedding of `PageTableEntry::empty`. -/
def PageTableEntry.empty : PageTableEntry := ⟨0⟩

/-- Embedding of `PageTableEntry::ppn`: `self.bits >> 10 & ((1usize << 44) - 1)`. -/
def PageTableEntry.ppn (e : PageTableEntry) : Nat :=
  (e.bits >>> 10) &&& ((1 <<< 44) - 1)

/-- Embedding of `PageTableEntry::flags`:
`PTEFlags::from_bits(self.bits as u8).unwrap()`; the `u8` cast is `% 256`,
and the `unwrap` of a `none` (a panic) is replaced by a default that claim
C10 shows is never used. -/
def PageTableEntry.flags (e : PageTableEntry) : Nat :=
  (PTEFlags.from_bits (e.bits % 256)).getD 0

/-- Embedding of `PageTableEntry::is_valid`:
`(self.flags() & PTEFlags::V) != PTEFlags::empty()`. -/
def PageTableEntry.is_valid (e : PageTableEntry) : Bool :=
  (e.flags &&& PTEFlags.V) != 0

/-- Embedding of `PageTableEntry::readable`. -/
def PageTableEntry.readable (e : PageTableEntry) : Bool :=
  (e.flags &&& PTEFlags.R) != 0

/-- Embedding of `PageTableEntry::writable`. -/
def PageTableEntry.writable (e : PageTableEntry) : Bool :=
  (e.flags &&& PTEFlags.W) != 0

/-- Embedding of `PageTableEntry::executable`. -/
def PageTableEntry.executable (e : PageTableEntry) : Bool :=
  (e.flags &&& PTEFlags.X) != 0

section BitHelpers

/-- Disjoint or is addition: `(a * 2^k) ||| b = a * 2^k + b` when `b < 2^k`. -/
theorem mul_pow_lor_eq_add (a b k : Nat) (hb : b < 2 ^ k) :
    (a * 2 ^ k) ||| b = a * 2 ^ k + b := by
  have h := Nat.mul_add_lt_is_or (i := k) hb a
  rw [Nat.mul_comm a (2 ^ k)]
  exact h.symm

/-- Normal form of the encoder: for an 8-bit flags byte,
`(PageTableEntry.new p f).bits = (p % 2 ^ 54) * 2 ^ 10 + f`. -/
theorem PageTableEntry.new_bits_eq (p f : Nat) (hf : f < 1024) :
    (PageTableEntry.new p f).bits = (p % 2 ^ 54) * 2 ^ 10 + f := by
  show ((p <<< 10) % USIZE) ||| f = (p % 2 ^ 54) * 2 ^ 10 + f
  have h1 : (p <<< 10) % USIZE = (p % 2 ^ 54) * 2 ^ 10 := by
    rw [Nat.shiftLeft_eq]
    show p * 2 ^ 10 % (2 ^ 64) = p % 2 ^ 54 * 2 ^ 10
    have : (2 : Nat) ^ 64 = 2 ^ 54 * 2 ^ 10 := by norm_num
    rw [this, Nat.mul_mod_mul_right]
  rw [h1, mul_pow_lor_eq_add _ _ 10 (by omega)]

/-- Low byte of an encoded entry is the flags byte. -/
theorem PageTableEntry.new_mod256 (p f : Nat) (hf : f < 256) :
    (PageTableEntry.new p f).bits % 256 = f := by
  rw [PageTableEntry.new_bits_eq p f (by omega)]
  have h2 : (p % 2 ^ 54) * 2 ^ 10 % 256 = 0 := by
    have h : (p % 2 ^ 54) * 2 ^ 10 = (p % 2 ^ 54) * 4 * 256 := by ring
    rw [h, Nat.mul_mod_left]
  omega

/-- `flags` recovers the flags byte of an encoded entry. -/
theorem PageTableEntry.new_flags (p f : Nat) (hf : f < 256) :
    (PageTableEntry.new p f).flags = f := by
  unfold PageTableEntry.flags PTEFlags.from_bits
  rw [PageTableEntry.new_mod256 p f hf]
  have hand : f &&& 255 = f := by
    have h := Nat.and_pow_two_sub_one_eq_mod f 8
    norm_num at h
    rw [h]
    exact Nat.mod_eq_of_lt hf
  simp [hand]

/-- `ppn` recovers the physical page number modulo the 44-bit window. -/
theorem PageTableEntry.new_ppn (p f : Nat) (hf : f < 1024) :
    (PageTableEntry.new p f).ppn = p % 2 ^ 44 := by
  unfold PageTableEntry.ppn
  rw [PageTableEntry.new_bits_eq p f hf]
  have hshift : ((p % 2 ^ 54) * 2 ^ 10 + f) >>> 10 = p % 2 ^ 54 := by
    rw [Nat.shiftRight_eq_div_pow]
    rw [Nat.mul_comm, Nat.mul_add_div (by norm_num)]
    have hd : f / 2 ^ 10 = 0 := Nat.div_eq_of_lt (by omega)
    omega
  rw [hshift]
  have hmask : (1 <<< 44) - 1 = 2 ^ 44 - 1 := by
    rw [Nat.shiftLeft_eq]; norm_num
  rw [hmask, Nat.and_pow_two_sub_one_eq_mod]
  exact Nat.mod_mod_of_dvd _ ⟨2 ^ 10, by norm_num⟩

/-- `is_valid` of an encoded entry whose flags byte has the `V` bit set. -/
theorem PageTableEntry.new_is_valid (p f : Nat) (hf : f < 256) (hv : f % 2 = 1) :
    (PageTableEntry.new p f).is_valid = true := by
  unfold PageTableEntry.is_valid
  rw [PageTableEntry.new_flags p f hf]
  show ((f &&& 1) != 0) = true
  rw [Nat.and_one_is_mod, hv]
  rfl

/-- The or with `V` makes the low bit one. -/
theorem lor_one_mod_two (f : Nat) : (f ||| 1) % 2 = 1 := by
  simp [Nat.or_mod_two_eq_one]

/-- The or with `V` stays an 8-bit flags byte. -/
theorem lor_one_lt_256 (f : Nat) (hf : f < 256) : f ||| 1 < 256 := by
  have : (256 : Nat) = 2 ^ 8 := by norm_num
  rw [this] at hf ⊢
  exact Nat.or_lt_two_pow hf (by norm_num)

/-- The zero entry is not valid. -/
theorem empty_not_valid : (PageTableEntry.empty).is_valid = false := by decide

end BitHelpers

/-- C3. Page-table-entry round-trip: for every flag set `F` over the 8 defined
flag bits and every physical page number `P` representable in the format
(`P < 2 ^ 44`), decoding the encoded entry recovers both components:
`(PageTableEntry.ppn, PageTableEntry.flags)` of `PageTableEntry.new P F`
is `(P, F)`. -/
theorem claim_C3_roundtrip (P F : Nat) (hP : P < 2 ^ 44) (hF : F < 256) :
    (PageTableEntry.new P F).ppn = P ∧ (PageTableEntry.new P F).flags = F := by
  constructor
  · rw [PageTableEntry.new_ppn P F (by omega)]
    exact Nat.mod_eq_of_lt hP
  · exact PageTableEntry.new_flags P F hF

/-- Witness for C3 at `P = 5`, `F = 3`. -/
theorem claim_C3_roundtrip_witness :
    (PageTableEntry.new 5 3).ppn = 5 ∧ (PageTableEntry.new 5 3).flags = 3 :=
  claim_C3_roundtrip 5 3 (by norm_num) (by norm_num)

/-- C4 counterexample: the encoder does not mask the physical page number to
the 44-bit window; `PageTableEntry::new` computes `ppn.0 << 10 | flags.bits`
with no 44-bit mask, so `encode(2 ^ 44, ∅) = 2 ^ 54 ≠ 0 = encode(2 ^ 44 % 2 ^ 44, ∅)`. -/
theorem claim_C4_counterexample :
    PageTableEntry.new (2 ^ 44) 0 ≠ PageTableEntry.new (2 ^ 44 % 2 ^ 44) 0 := by
  decide

/-- C4 amended: `encode(P, F)` places the physical page number, shifted 10 bits
up (immediately above the 8 flag bits plus the 2 reserved low bits) and
truncated only by the 64-bit word width (`P % 2 ^ 54`), and packs the flag
bits unmodified into the low byte.  The 44-bit masking happens in the decoder,
so `ppn(encode(P, F)) = P % 2 ^ 44`, while `encode(P, F) = encode(P % 2 ^ 54, F)`
(not `encode(P % 2 ^ 44, F)`) for every `P`. -/
theorem claim_C4_encode_layout (P F : Nat) (hF : F < 256) :
    (PageTableEntry.new P F).bits = (P % 2 ^ 54) * 2 ^ 10 + F ∧
    (PageTableEntry.new P F).flags = F ∧
    (PageTableEntry.new P F).ppn = P % 2 ^ 44 ∧
    PageTableEntry.new P F = PageTableEntry.new (P % 2 ^ 54) F := by
  refine ⟨PageTableEntry.new_bits_eq P F (by omega),
    PageTableEntry.new_flags P F hF,
    PageTableEntry.new_ppn P F (by omega), ?_⟩
  have h1 := PageTableEntry.new_bits_eq P F (by omega : F < 1024)
  have h2 := PageTableEntry.new_bits_eq (P % 2 ^ 54) F (by omega : F < 1024)
  have hmm : P % 2 ^ 54 % 2 ^ 54 = P % 2 ^ 54 := Nat.mod_mod_of_dvd P dvd_rfl
  cases hnew : PageTableEntry.new P F with
  | mk b =>
    cases hnew2 : PageTableEntry.new (P % 2 ^ 54) F with
    | mk b2 =>
      rw [hnew] at h1
      rw [hnew2] at h2
      simp only at h1 h2
      simp [h1, h2, hmm]

/-- Witness for C4's amended theorem at `P = 2 ^ 44`, `F = 3`. -/
theorem claim_C4_encode_layout_witness :
    (PageTableEntry.new (2 ^ 44) 3).bits = (2 ^ 44 % 2 ^ 54) * 2 ^ 10 + 3 ∧
    (PageTableEntry.new (2 ^ 44) 3).flags = 3 ∧
    (PageTableEntry.new (2 ^ 44) 3).ppn = 2 ^ 44 % 2 ^ 44 ∧
    PageTableEntry.new (2 ^ 44) 3 = PageTableEntry.new (2 ^ 44 % 2 ^ 54) 3 :=
  claim_C4_encode_layout (2 ^ 44) 3 (by norm_num)

/-- C10. Flag decoding is total: for every entry bit pattern, the
`PTEFlags::from_bits` conversion of the low byte never returns `none`,
because all 8 bits of the flags byte are defined flags; hence
`PageTableEntry::flags` (and `is_valid`, `readable`, `writable`,
`executable`) always succeeds and the `unwrap` inside it is unreachable. -/
theorem claim_C10_flags_total (bits : Nat) :
    PTEFlags.from_bits (bits % 256) = some (bits % 256) ∧
    (PageTableEntry.mk bits).flags = bits % 256 := by
  have hb : bits % 256 &&& 255 = bits % 256 := by
    have h := Nat.and_pow_two_sub_one_eq_mod (bits % 256) 8
    norm_num at h
    exact h
  constructor
  · unfold PTEFlags.from_bits
    simp [hb]
  · unfold PageTableEntry.flags PTEFlags.from_bits
    simp [hb]

/-- Embedding of `PageTable { root_ppn, frames }`; `frames` keeps the physical
page numbers of the owned `FrameTracker`s. -/
structure PageTable where
  root_ppn : Nat
  frames : List Nat

/-- Embedding of `PageTable::token`: `8usize << 60 | self.root_ppn.0`. -/
def PageTable.token (pt : PageTable) : Nat :=
  (8 <<< 60) ||| pt.root_ppn

/-- Embedding of `PageTable::from_token`:
`root_ppn = satp & ((1usize << 44) - 1)` with an empty frame list. -/
def PageTable.from_token (satp : Nat) : PageTable :=
  ⟨satp &&& ((1 <<< 44) - 1), []⟩

/-- C8. Token round-trip: for every page table whose root physical page number
is below `2 ^ 44`, `token()` produces the fixed mode tag 8 in bits 60 to 63
combined with the root physical page number in the low 44 bits, and
`from_token(token())` reconstructs a view with the same root physical page
number that owns no frames. -/
theorem claim_C8_token_roundtrip (pt : PageTable) (h : pt.root_ppn < 2 ^ 44) :
    pt.token >>> 60 = 8 ∧
    pt.token &&& ((1 <<< 44) - 1) = pt.root_ppn ∧
    (PageTable.from_token pt.token).root_ppn = pt.root_ppn ∧
    (PageTable.from_token pt.token).frames = [] := by
  have htok : pt.token = 1 * 2 ^ 63 + pt.root_ppn := by
    unfold PageTable.token
    have h8 : (8 : Nat) <<< 60 = 1 * 2 ^ 63 := by
      rw [Nat.shiftLeft_eq]; norm_num
    rw [h8]
    exact mul_pow_lor_eq_add 1 pt.root_ppn 63 (by omega)
  have hand : pt.token &&& ((1 <<< 44) - 1) = pt.root_ppn := by
    have hmask : ((1 : Nat) <<< 44) - 1 = 2 ^ 44 - 1 := by
      rw [Nat.shiftLeft_eq]; norm_num
    rw [hmask, Nat.and_pow_two_sub_one_eq_mod, htok]
    have : (1 * 2 ^ 63 + pt.root_ppn) % 2 ^ 44 = pt.root_ppn % 2 ^ 44 := by
      have hdvd : (2 : Nat) ^ 44 ∣ 1 * 2 ^ 63 := ⟨2 ^ 19, by norm_num⟩
      omega
    rw [this]
    exact Nat.mod_eq_of_lt h
  refine ⟨?_, hand, ?_, rfl⟩
  · rw [htok, Nat.shiftRight_eq_div_pow]
    have : (1 * 2 ^ 63 + pt.root_ppn) / 2 ^ 60 = 8 := by
      have h60 : pt.root_ppn < 2 ^ 60 := by omega
      omega
    exact this
  · unfold PageTable.from_token
    simp only
    exact hand

/-- Witness for C8 at a table with root physical page number 3. -/
theorem claim_C8_token_roundtrip_witness :
    (PageTable.mk 3 [3]).token >>> 60 = 8 ∧
    (PageTable.mk 3 [3]).token &&& ((1 <<< 44) - 1) = 3 ∧
    (PageTable.from_token (PageTable.mk 3 [3]).token).root_ppn = 3 ∧
    (PageTable.from_token (PageTable.mk 3 [3]).token).frames = [] :=
  claim_C8_token_roundtrip (PageTable.mk 3 [3]) (by norm_num)

/-- Physical memory viewed through `PhysPageNum::get_pte_array`: a function
from physical page number and entry index (0..511) to raw entry bits.
Modelled from the spec (§3): `mm/address.rs` is not part of the source under
review; each frame holds 512 page-table entries. -/
abbrev Mem := Nat → Nat → Nat

/-- Write one page-table entry slot of one frame. -/
def memSet (m : Mem) (f i v : Nat) : Mem :=
  fun g j => if g = f ∧ j = i then v else m g j

/-- Clear a whole frame to zero bytes (hence zero entries). -/
def zeroFrame (m : Mem) (f : Nat) : Mem :=
  fun g j => if g = f then 0 else m g j

/-- Machine state: the physical memory plus the allocator cursor (the next
physical page number the external frame allocator hands out). -/
structure MachineState where
  mem : Mem
  next : Nat

/-- Modelled from the spec: `frame_alloc` is the external frame allocator
(§4.2, §6; `mm/frame_allocator.rs` is not part of the source under review).
It returns a fresh frame, cleared, so that the create-walk can descend into a
newly allocated node frame and find only invalid entries (§4.3); exhaustion
is assumed not to occur (§7). -/
def frame_alloc (s : MachineState) : Nat × MachineState :=
  (s.next, ⟨zeroFrame s.mem s.next, s.next + 1⟩)

/-- Modelled from the spec (§3, §4.3): most-significant 9-bit level index of a
virtual page number (`VirtPageNum::indexes()[0]`; `mm/address.rs` is not part
of the source under review). -/
def vpnIdx0 (vpn : Nat) : Nat := (vpn >>> 18) &&& 511

/-- Modelled from the spec (§3, §4.3): middle 9-bit level index
(`VirtPageNum::indexes()[1]`). -/
def vpnIdx1 (vpn : Nat) : Nat := (vpn >>> 9) &&& 511

/-- Modelled from the spec (§3, §4.3): least-significant 9-bit level index
(`VirtPageNum::indexes()[2]`). -/
def vpnIdx2 (vpn : Nat) : Nat := vpn &&& 511

/-- The entry stored at frame `fr`, slot `i` of memory `m`
(`ppn.get_pte_array()[i]`). -/
def entryAt (m : Mem) (fr i : Nat) : PageTableEntry := ⟨m fr i⟩

/-- Result of the create-walk: the updated machine state and table, and the
location (frame, slot) of the leaf entry the walk returns a reference to. -/
structure WalkResult where
  st : MachineState
  table : PageTable
  leaf_frame : Nat
  leaf_idx : Nat

/-- One invalid-intermediate step of the create-walk: allocate a fresh frame,
record it as Valid with no access permissions
(`*pte = PageTableEntry::new(frame.ppn, PTEFlags::V)`), and push it onto the
table's owned-frame list. -/
def walkAllocStep (s : MachineState) (pt : PageTable) (node idx : Nat) :
    MachineState × PageTable :=
  let fa := frame_alloc s
  (⟨memSet fa.2.mem node idx (PageTableEntry.new fa.1 PTEFlags.V).bits, fa.2.next⟩,
   ⟨pt.root_ppn, pt.frames ++ [fa.1]⟩)

/-- Embedding of `PageTable::find_pte_create`: the unrolled 3-level loop.  At
each of the first two levels the indexed entry is read; if it is invalid a
fresh frame is allocated and a Valid entry written; the walk then descends
through the (re-read) entry's `ppn`.  At the third level the location of the
leaf entry is returned (the Rust `Option` result is always `Some`). -/
def PageTable.find_pte_create (s : MachineState) (pt : PageTable) (vpn : Nat) :
    WalkResult :=
  let step0 :=
    if (entryAt s.mem pt.root_ppn (vpnIdx0 vpn)).is_valid then (s, pt)
    else walkAllocStep s pt pt.root_ppn (vpnIdx0 vpn)
  let f1 := (entryAt step0.1.mem pt.root_ppn (vpnIdx0 vpn)).ppn
  let step1 :=
    if (entryAt step0.1.mem f1 (vpnIdx1 vpn)).is_valid then step0
    else walkAllocStep step0.1 step0.2 f1 (vpnIdx1 vpn)
  ⟨step1.1, step1.2, (entryAt step1.1.mem f1 (vpnIdx1 vpn)).ppn, vpnIdx2 vpn⟩

/-- Embedding of `PageTable::find_pte`: the read-only walk; an invalid entry
at either of the first two levels fails the walk; the leaf entry is returned
without a validity check. -/
def PageTable.find_pte (m : Mem) (root vpn : Nat) : Option PageTableEntry :=
  if (entryAt m root (vpnIdx0 vpn)).is_valid then
    let f1 := (entryAt m root (vpnIdx0 vpn)).ppn
    if (entryAt m f1 (vpnIdx1 vpn)).is_valid then
      some (entryAt m (entryAt m f1 (vpnIdx1 vpn)).ppn (vpnIdx2 vpn))
    else none
  else none

/-- Embedding of `PageTable::map`: create-walk to the leaf; the
`assert!(!pte.is_valid())` panic is `none`; otherwise the leaf is overwritten
with `PageTableEntry::new(ppn, flags | PTEFlags::V)`. -/
def PageTable.map (s : MachineState) (pt : PageTable) (vpn ppn flags : Nat) :
    Option (MachineState × PageTable) :=
  let w := PageTable.find_pte_create s pt vpn
  if (entryAt w.st.mem w.leaf_frame w.leaf_idx).is_valid then none
  else some
    (⟨memSet w.st.mem w.leaf_frame w.leaf_idx
        (PageTableEntry.new ppn (flags ||| PTEFlags.V)).bits, w.st.next⟩,
     w.table)

/-- Embedding of `PageTable::unmap`: create-walk to the leaf; the
`assert!(pte.is_valid())` panic is `none`; otherwise the leaf is overwritten
with `PageTableEntry::empty()`. -/
def PageTable.unmap (s : MachineState) (pt : PageTable) (vpn : Nat) :
    Option (MachineState × PageTable) :=
  let w := PageTable.find_pte_create s pt vpn
  if (entryAt w.st.mem w.leaf_frame w.leaf_idx).is_valid then
    some (⟨memSet w.st.mem w.leaf_frame w.leaf_idx PageTableEntry.empty.bits,
           w.st.next⟩, w.table)
  else none

/-- Embedding of `PageTable::translate`: `self.find_pte(vpn).copied()`. -/
def PageTable.translate (m : Mem) (pt : PageTable) (vpn : Nat) :
    Option PageTableEntry :=
  PageTable.find_pte m pt.root_ppn vpn

/-- Embedding of `PageTable::new`: one frame from the allocator becomes the
root, owned by the table. -/
def PageTable.new (s : MachineState) : MachineState × PageTable :=
  let fa := frame_alloc s
  (fa.2, ⟨fa.1, [fa.1]⟩)

section MemLemmas

theorem memSet_self (m : Mem) (f i v : Nat) : memSet m f i v f i = v := by
  simp [memSet]

theorem memSet_ne_frame (m : Mem) (f i v g j : Nat) (h : g ≠ f) :
    memSet m f i v g j = m g j := by
  simp [memSet, h]

theorem memSet_ne_idx (m : Mem) (f i v g j : Nat) (h : j ≠ i) :
    memSet m f i v g j = m g j := by
  simp [memSet, h]

theorem zeroFrame_self (m : Mem) (f j : Nat) : zeroFrame m f f j = 0 := by
  simp [zeroFrame]

theorem zeroFrame_ne (m : Mem) (f g j : Nat) (h : g ≠ f) :
    zeroFrame m f g j = m g j := by
  simp [zeroFrame, h]

theorem PTEFlags.V_eq : PTEFlags.V = 1 := rfl

end MemLemmas

section WalkLemmas

theorem entryAt_memSet_self (m : Mem) (f i v : Nat) :
    entryAt (memSet m f i v) f i = ⟨v⟩ := by
  unfold entryAt
  rw [memSet_self]

theorem entryAt_memSet_ne_frame (m : Mem) (f i v g j : Nat) (h : g ≠ f) :
    entryAt (memSet m f i v) g j = entryAt m g j := by
  unfold entryAt
  rw [memSet_ne_frame m f i v g j h]

theorem entryAt_memSet_ne_idx (m : Mem) (f i v g j : Nat) (h : j ≠ i) :
    entryAt (memSet m f i v) g j = entryAt m g j := by
  unfold entryAt
  rw [memSet_ne_idx m f i v g j h]

theorem entryAt_zeroFrame_self (m : Mem) (f j : Nat) :
    entryAt (zeroFrame m f) f j = ⟨0⟩ := by
  unfold entryAt
  rw [zeroFrame_self]

theorem entryAt_zeroFrame_ne (m : Mem) (f g j : Nat) (h : g ≠ f) :
    entryAt (zeroFrame m f) g j = entryAt m g j := by
  unfold entryAt
  rw [zeroFrame_ne m f g j h]

theorem PageTableEntry.mk_bits (e : PageTableEntry) :
    (⟨e.bits⟩ : PageTableEntry) = e := rfl

theorem zero_entry_not_valid : (PageTableEntry.mk 0).is_valid = false := by decide

theorem new_V_ppn (a : Nat) (ha : a < 2 ^ 44) :
    (PageTableEntry.new a PTEFlags.V).ppn = a := by
  rw [PTEFlags.V_eq, PageTableEntry.new_ppn a 1 (by norm_num)]
  exact Nat.mod_eq_of_lt ha

theorem new_V_valid (a : Nat) :
    (PageTableEntry.new a PTEFlags.V).is_valid = true := by
  rw [PTEFlags.V_eq]
  exact PageTableEntry.new_is_valid a 1 (by norm_num) (by norm_num)

theorem new_lor_V_valid (p f : Nat) (hf : f < 256) :
    (PageTableEntry.new p (f ||| PTEFlags.V)).is_valid = true := by
  rw [PTEFlags.V_eq]
  exact PageTableEntry.new_is_valid p (f ||| 1) (lor_one_lt_256 f hf) (lor_one_mod_two f)

/-- Unfolding equation for `PageTable.map`. -/
theorem map_eq (s : MachineState) (pt : PageTable) (vpn ppn flags : Nat) :
    PageTable.map s pt vpn ppn flags =
      (if (entryAt (PageTable.find_pte_create s pt vpn).st.mem
             (PageTable.find_pte_create s pt vpn).leaf_frame
             (PageTable.find_pte_create s pt vpn).leaf_idx).is_valid then none
       else some
         (⟨memSet (PageTable.find_pte_create s pt vpn).st.mem
             (PageTable.find_pte_create s pt vpn).leaf_frame
             (PageTable.find_pte_create s pt vpn).leaf_idx
             (PageTableEntry.new ppn (flags ||| PTEFlags.V)).bits,
           (PageTable.find_pte_create s pt vpn).st.next⟩,
          (PageTable.find_pte_create s pt vpn).table)) := rfl

/-- Unfolding equation for `PageTable.unmap`. -/
theorem unmap_eq (s : MachineState) (pt : PageTable) (vpn : Nat) :
    PageTable.unmap s pt vpn =
      (if (entryAt (PageTable.find_pte_create s pt vpn).st.mem
             (PageTable.find_pte_create s pt vpn).leaf_frame
             (PageTable.find_pte_create s pt vpn).leaf_idx).is_valid then
        some
         (⟨memSet (PageTable.find_pte_create s pt vpn).st.mem
             (PageTable.find_pte_create s pt vpn).leaf_frame
             (PageTable.find_pte_create s pt vpn).leaf_idx
             PageTableEntry.empty.bits,
           (PageTable.find_pte_create s pt vpn).st.next⟩,
          (PageTable.find_pte_create s pt vpn).table)
       else none) := rfl

/-- Layout of the machine state after a successful `map`: the walk's
three-level path for `vpn` is intact in the new state, the leaf slot holds
the freshly encoded entry, and the leaf-array frame is distinct from the two
node frames on the path.  The hypotheses say the table is well formed along
this path: the root and the node frame it points to lie below the allocator
cursor and do not alias each other or the leaf-array frame. -/
theorem map_path (s : MachineState) (pt : PageTable) (v p f : Nat)
    (r : MachineState × PageTable)
    (hroot : pt.root_ppn < s.next)
    (hnext : s.next + 1 < 2 ^ 44)
    (h0 : (entryAt s.mem pt.root_ppn (vpnIdx0 v)).is_valid = true →
      (entryAt s.mem pt.root_ppn (vpnIdx0 v)).ppn < s.next ∧
      (entryAt s.mem pt.root_ppn (vpnIdx0 v)).ppn ≠ pt.root_ppn)
    (h1 : (entryAt s.mem pt.root_ppn (vpnIdx0 v)).is_valid = true →
      (entryAt s.mem ((entryAt s.mem pt.root_ppn (vpnIdx0 v)).ppn)
        (vpnIdx1 v)).is_valid = true →
      (entryAt s.mem ((entryAt s.mem pt.root_ppn (vpnIdx0 v)).ppn)
        (vpnIdx1 v)).ppn ≠ pt.root_ppn ∧
      (entryAt s.mem ((entryAt s.mem pt.root_ppn (vpnIdx0 v)).ppn)
        (vpnIdx1 v)).ppn ≠ (entryAt s.mem pt.root_ppn (vpnIdx0 v)).ppn)
    (hmap : PageTable.map s pt v p f = some r) :
    r.2.root_ppn = pt.root_ppn ∧
    ∃ F1 F2,
      (entryAt r.1.mem pt.root_ppn (vpnIdx0 v)).is_valid = true ∧
      (entryAt r.1.mem pt.root_ppn (vpnIdx0 v)).ppn = F1 ∧
      (entryAt r.1.mem F1 (vpnIdx1 v)).is_valid = true ∧
      (entryAt r.1.mem F1 (vpnIdx1 v)).ppn = F2 ∧
      entryAt r.1.mem F2 (vpnIdx2 v) = PageTableEntry.new p (f ||| PTEFlags.V) ∧
      F1 ≠ pt.root_ppn ∧ F2 ≠ pt.root_ppn ∧ F2 ≠ F1 := by
  by_cases h0v : (entryAt s.mem pt.root_ppn (vpnIdx0 v)).is_valid = true
  · by_cases h1v : (entryAt s.mem ((entryAt s.mem pt.root_ppn (vpnIdx0 v)).ppn)
        (vpnIdx1 v)).is_valid = true
    · -- both intermediate entries already valid
      obtain ⟨hb0, hb0'⟩ := h0 h0v
      obtain ⟨hb1, hb1'⟩ := h1 h0v h1v
      have hw : PageTable.find_pte_create s pt v =
          ⟨s, pt,
           (entryAt s.mem ((entryAt s.mem pt.root_ppn (vpnIdx0 v)).ppn)
             (vpnIdx1 v)).ppn,
           vpnIdx2 v⟩ := by
        simp [PageTable.find_pte_create, h0v, h1v]
      rw [map_eq, hw] at hmap
      dsimp only at hmap
      by_cases hleaf : (entryAt s.mem
          ((entryAt s.mem ((entryAt s.mem pt.root_ppn (vpnIdx0 v)).ppn)
            (vpnIdx1 v)).ppn) (vpnIdx2 v)).is_valid = true
      · rw [if_pos hleaf] at hmap
        exact Option.noConfusion hmap
      · rw [if_neg hleaf, Option.some.injEq] at hmap
        subst hmap
        refine ⟨rfl, (entryAt s.mem pt.root_ppn (vpnIdx0 v)).ppn,
          (entryAt s.mem ((entryAt s.mem pt.root_ppn (vpnIdx0 v)).ppn)
            (vpnIdx1 v)).ppn, ?_, ?_, ?_, ?_, ?_, hb0', hb1, hb1'⟩
        · rw [entryAt_memSet_ne_frame _ _ _ _ _ _ (Ne.symm hb1)]
          exact h0v
        · rw [entryAt_memSet_ne_frame _ _ _ _ _ _ (Ne.symm hb1)]
        · rw [entryAt_memSet_ne_frame _ _ _ _ _ _ (Ne.symm hb1')]
          exact h1v
        · rw [entryAt_memSet_ne_frame _ _ _ _ _ _ (Ne.symm hb1')]
        · rw [entryAt_memSet_self, PageTableEntry.mk_bits]
    · -- first level valid, second level freshly allocated
      obtain ⟨hb0, hb0'⟩ := h0 h0v
      have hppn1 : (PageTableEntry.new s.next PTEFlags.V).ppn = s.next :=
        new_V_ppn s.next (by omega)
      have hw : PageTable.find_pte_create s pt v =
          ⟨⟨memSet (zeroFrame s.mem s.next)
              ((entryAt s.mem pt.root_ppn (vpnIdx0 v)).ppn) (vpnIdx1 v)
              (PageTableEntry.new s.next PTEFlags.V).bits, s.next + 1⟩,
           ⟨pt.root_ppn, pt.frames ++ [s.next]⟩, s.next, vpnIdx2 v⟩ := by
        simp [PageTable.find_pte_create, walkAllocStep, frame_alloc, h0v, h1v,
          entryAt_memSet_self, PageTableEntry.mk_bits, hppn1]
      have hne_rn : pt.root_ppn ≠ s.next := by omega
      have hne_f1n : (entryAt s.mem pt.root_ppn (vpnIdx0 v)).ppn ≠ s.next := by
        omega
      rw [map_eq, hw] at hmap
      dsimp only at hmap
      rw [if_neg ?hlf, Option.some.injEq] at hmap
      case hlf =>
        rw [entryAt_memSet_ne_frame _ _ _ _ _ _ (Ne.symm hne_f1n),
          entryAt_zeroFrame_self, zero_entry_not_valid]
        simp
      subst hmap
      refine ⟨rfl, (entryAt s.mem pt.root_ppn (vpnIdx0 v)).ppn, s.next,
        ?_, ?_, ?_, ?_, ?_, hb0', Ne.symm hne_rn, Ne.symm hne_f1n⟩
      · rw [entryAt_memSet_ne_frame _ _ _ _ _ _ hne_rn,
          entryAt_memSet_ne_frame _ _ _ _ _ _ (Ne.symm hb0'),
          entryAt_zeroFrame_ne _ _ _ _ hne_rn]
        exact h0v
      · rw [entryAt_memSet_ne_frame _ _ _ _ _ _ hne_rn,
          entryAt_memSet_ne_frame _ _ _ _ _ _ (Ne.symm hb0'),
          entryAt_zeroFrame_ne _ _ _ _ hne_rn]
      · rw [entryAt_memSet_ne_frame _ _ _ _ _ _ hne_f1n,
          entryAt_memSet_self, PageTableEntry.mk_bits]
        exact new_V_valid s.next
      · rw [entryAt_memSet_ne_frame _ _ _ _ _ _ hne_f1n,
          entryAt_memSet_self, PageTableEntry.mk_bits]
        exact hppn1
      · rw [entryAt_memSet_self, PageTableEntry.mk_bits]
  · -- both levels freshly allocated
    have hppn1 : (PageTableEntry.new s.next PTEFlags.V).ppn = s.next :=
      new_V_ppn s.next (by omega)
    have hppn2 : (PageTableEntry.new (s.next + 1) PTEFlags.V).ppn = s.next + 1 :=
      new_V_ppn (s.next + 1) (by omega)
    have hne_rn : pt.root_ppn ≠ s.next := by omega
    have hne_rn1 : pt.root_ppn ≠ s.next + 1 := by omega
    have hne_nn1 : s.next ≠ s.next + 1 := by omega
    have hw : PageTable.find_pte_create s pt v =
        ⟨⟨memSet (zeroFrame (memSet (zeroFrame s.mem s.next) pt.root_ppn
              (vpnIdx0 v) (PageTableEntry.new s.next PTEFlags.V).bits)
              (s.next + 1)) s.next (vpnIdx1 v)
            (PageTableEntry.new (s.next + 1) PTEFlags.V).bits, s.next + 2⟩,
         ⟨pt.root_ppn, pt.frames ++ [s.next, s.next + 1]⟩,
         s.next + 1, vpnIdx2 v⟩ := by
      simp [PageTable.find_pte_create, walkAllocStep, frame_alloc, h0v,
        entryAt_memSet_self, PageTableEntry.mk_bits, hppn1, hppn2,
        entryAt_memSet_ne_frame _ _ _ _ _ _ (Ne.symm hne_rn),
        entryAt_zeroFrame_self, zero_entry_not_valid]
    rw [map_eq, hw] at hmap
    dsimp only at hmap
    rw [if_neg ?hlf, Option.some.injEq] at hmap
    case hlf =>
      rw [entryAt_memSet_ne_frame _ _ _ _ _ _ (Ne.symm hne_nn1),
        entryAt_zeroFrame_self, zero_entry_not_valid]
      simp
    subst hmap
    refine ⟨rfl, s.next, s.next + 1, ?_, ?_, ?_, ?_, ?_,
      Ne.symm hne_rn, Ne.symm hne_rn1, Ne.symm hne_nn1⟩
    · rw [entryAt_memSet_ne_frame _ _ _ _ _ _ hne_rn1,
        entryAt_memSet_ne_frame _ _ _ _ _ _ hne_rn,
        entryAt_zeroFrame_ne _ _ _ _ hne_rn1,
        entryAt_memSet_self, PageTableEntry.mk_bits]
      exact new_V_valid s.next
    · rw [entryAt_memSet_ne_frame _ _ _ _ _ _ hne_rn1,
        entryAt_memSet_ne_frame _ _ _ _ _ _ hne_rn,
        entryAt_zeroFrame_ne _ _ _ _ hne_rn1,
        entryAt_memSet_self, PageTableEntry.mk_bits]
      exact hppn1
    · rw [entryAt_memSet_ne_frame _ _ _ _ _ _ hne_nn1,
        entryAt_memSet_self, PageTableEntry.mk_bits]
      exact new_V_valid (s.next + 1)
    · rw [entryAt_memSet_ne_frame _ _ _ _ _ _ hne_nn1,
        entryAt_memSet_self, PageTableEntry.mk_bits]
      exact hppn2
    · rw [entryAt_memSet_self, PageTableEntry.mk_bits]

end WalkLemmas

/-- The read-only walk succeeds along an intact three-level path. -/
theorem find_pte_of_path (m : Mem) (root v F1 F2 : Nat) (e : PageTableEntry)
    (h0 : (entryAt m root (vpnIdx0 v)).is_valid = true)
    (hp0 : (entryAt m root (vpnIdx0 v)).ppn = F1)
    (h1 : (entryAt m F1 (vpnIdx1 v)).is_valid = true)
    (hp1 : (entryAt m F1 (vpnIdx1 v)).ppn = F2)
    (hleaf : entryAt m F2 (vpnIdx2 v) = e) :
    PageTable.find_pte m root v = some e := by
  simp [PageTable.find_pte, h0, hp0, h1, hp1, hleaf]

/-- C1. Map/translate consistency: for every page table `T` (well formed along
the walk path for `v`, with the allocator cursor above the in-use frames),
virtual page number `v` whose leaf entry is not currently Valid (equivalently:
`T.map(v, p, f)` does not hit the `assert` panic and returns a state `r`),
physical page number `p` representable in the entry format, and flag set `f`,
after `T.map(v, p, f)` the call `T.translate(v)` returns `some` entry whose
physical page number is `p` and whose flags contain every flag of `f` plus
Valid (indeed the flags are exactly `f ||| V`). -/
theorem claim_C1_map_translate (s : MachineState) (pt : PageTable) (v p f : Nat)
    (r : MachineState × PageTable)
    (hp : p < 2 ^ 44) (hf : f < 256)
    (hroot : pt.root_ppn < s.next)
    (hnext : s.next + 1 < 2 ^ 44)
    (h0 : (entryAt s.mem pt.root_ppn (vpnIdx0 v)).is_valid = true →
      (entryAt s.mem pt.root_ppn (vpnIdx0 v)).ppn < s.next ∧
      (entryAt s.mem pt.root_ppn (vpnIdx0 v)).ppn ≠ pt.root_ppn)
    (h1 : (entryAt s.mem pt.root_ppn (vpnIdx0 v)).is_valid = true →
      (entryAt s.mem ((entryAt s.mem pt.root_ppn (vpnIdx0 v)).ppn)
        (vpnIdx1 v)).is_valid = true →
      (entryAt s.mem ((entryAt s.mem pt.root_ppn (vpnIdx0 v)).ppn)
        (vpnIdx1 v)).ppn ≠ pt.root_ppn ∧
      (entryAt s.mem ((entryAt s.mem pt.root_ppn (vpnIdx0 v)).ppn)
        (vpnIdx1 v)).ppn ≠ (entryAt s.mem pt.root_ppn (vpnIdx0 v)).ppn)
    (hmap : PageTable.map s pt v p f = some r) :
    PageTable.translate r.1.mem r.2 v =
      some (PageTableEntry.new p (f ||| PTEFlags.V)) ∧
    (PageTableEntry.new p (f ||| PTEFlags.V)).ppn = p ∧
    (PageTableEntry.new p (f ||| PTEFlags.V)).flags = f ||| PTEFlags.V ∧
    (PageTableEntry.new p (f ||| PTEFlags.V)).is_valid = true := by
  obtain ⟨hroot_eq, F1, F2, ha, hb, hc, hd, he, -, -, -⟩ :=
    map_path s pt v p f r hroot hnext h0 h1 hmap
  refine ⟨?_, ?_, ?_, new_lor_V_valid p f hf⟩
  · unfold PageTable.translate
    rw [hroot_eq]
    exact find_pte_of_path _ _ _ _ _ _ ha hb hc hd he
  · rw [PTEFlags.V_eq,
      PageTableEntry.new_ppn p (f ||| 1) (by have := lor_one_lt_256 f hf; omega)]
    exact Nat.mod_eq_of_lt hp
  · rw [PTEFlags.V_eq]
    exact PageTableEntry.new_flags p (f ||| 1) (lor_one_lt_256 f hf)

/-- Concrete demonstration machine: all memory zero, allocator cursor 1. -/
def demoState : MachineState := ⟨fun _ _ => 0, 1⟩

/-- Concrete demonstration table rooted at (zeroed) frame 0. -/
def demoPT : PageTable := ⟨0, [0]⟩

/-- The machine and table after `map(0, 7, R)` on the demonstration machine. -/
def demoMapped : MachineState × PageTable :=
  (PageTable.map demoState demoPT 0 7 2).getD (demoState, demoPT)

/-- Witness for C1 on the demonstration machine: `map(0, 7, R)` then
`translate(0)` yields the entry encoding `(7, R ||| V)`. -/
theorem claim_C1_map_translate_witness :
    PageTable.translate demoMapped.1.mem demoMapped.2 0 =
      some (PageTableEntry.new 7 (2 ||| PTEFlags.V)) ∧
    (PageTableEntry.new 7 (2 ||| PTEFlags.V)).ppn = 7 ∧
    (PageTableEntry.new 7 (2 ||| PTEFlags.V)).flags = 2 ||| PTEFlags.V ∧
    (PageTableEntry.new 7 (2 ||| PTEFlags.V)).is_valid = true :=
  claim_C1_map_translate demoState demoPT 0 7 2 demoMapped (by norm_num)
    (by norm_num) (by decide) (by decide) (by decide) (by decide) rfl

/-- The machine and table after `unmap(0)` following `map(0, 7, R)` on the
demonstration machine. -/
def demoUnmapped : MachineState × PageTable :=
  (PageTable.unmap demoMapped.1 demoMapped.2 0).getD demoMapped

/-- C2 counterexample: `translate` does not return `none` on a reachable
non-Valid leaf.  On the demonstration machine, after `map(0, 7, R)` followed
by `unmap(0)`, the walk reaches the (now zeroed) leaf and `translate(0)`
returns `some` of the empty entry — not `none` as the claim states. -/
theorem claim_C2_counterexample :
    PageTable.map demoState demoPT 0 7 2 = some demoMapped ∧
    PageTable.unmap demoMapped.1 demoMapped.2 0 = some demoUnmapped ∧
    PageTable.translate demoUnmapped.1.mem demoUnmapped.2 0 =
      some PageTableEntry.empty ∧
    some PageTableEntry.empty ≠ (none : Option PageTableEntry) := by
  exact ⟨rfl, rfl, rfl, by simp⟩

/-- C2 amended: `translate` reports `none` exactly on a translation miss at
an intermediate level: (i) an invalid entry at the first level gives `none`;
(ii) an invalid entry at the second level gives `none`; (iii) when both
intermediate entries are valid the walk reaches the leaf and returns `some`
of the leaf entry copy without checking its Valid bit, so an
unmapped-but-reachable leaf is reported as `some` entry with Valid unset;
in particular (iv) after `T.map(v, p, f)` followed by `T.unmap(v)` (on a
table well formed along the walk path), `T.translate(v)` returns `some` of
the empty (all-zero, non-Valid) entry. -/
theorem claim_C2_translate_not_mapped :
    (∀ (m : Mem) (root v : Nat),
      (entryAt m root (vpnIdx0 v)).is_valid = false →
      PageTable.find_pte m root v = none) ∧
    (∀ (m : Mem) (root v : Nat),
      (entryAt m root (vpnIdx0 v)).is_valid = true →
      (entryAt m ((entryAt m root (vpnIdx0 v)).ppn) (vpnIdx1 v)).is_valid = false →
      PageTable.find_pte m root v = none) ∧
    (∀ (m : Mem) (root v : Nat),
      (entryAt m root (vpnIdx0 v)).is_valid = true →
      (entryAt m ((entryAt m root (vpnIdx0 v)).ppn) (vpnIdx1 v)).is_valid = true →
      PageTable.find_pte m root v =
        some (entryAt m
          ((entryAt m ((entryAt m root (vpnIdx0 v)).ppn) (vpnIdx1 v)).ppn)
          (vpnIdx2 v))) ∧
    (∀ (s : MachineState) (pt : PageTable) (v p f : Nat)
      (r : MachineState × PageTable),
      f < 256 →
      pt.root_ppn < s.next →
      s.next + 1 < 2 ^ 44 →
      ((entryAt s.mem pt.root_ppn (vpnIdx0 v)).is_valid = true →
        (entryAt s.mem pt.root_ppn (vpnIdx0 v)).ppn < s.next ∧
        (entryAt s.mem pt.root_ppn (vpnIdx0 v)).ppn ≠ pt.root_ppn) →
      ((entryAt s.mem pt.root_ppn (vpnIdx0 v)).is_valid = true →
        (entryAt s.mem ((entryAt s.mem pt.root_ppn (vpnIdx0 v)).ppn)
          (vpnIdx1 v)).is_valid = true →
        (entryAt s.mem ((entryAt s.mem pt.root_ppn (vpnIdx0 v)).ppn)
          (vpnIdx1 v)).ppn ≠ pt.root_ppn ∧
        (entryAt s.mem ((entryAt s.mem pt.root_ppn (vpnIdx0 v)).ppn)
          (vpnIdx1 v)).ppn ≠ (entryAt s.mem pt.root_ppn (vpnIdx0 v)).ppn) →
      PageTable.map s pt v p f = some r →
      ∃ r2, PageTable.unmap r.1 r.2 v = some r2 ∧
        PageTable.translate r2.1.mem r2.2 v = some PageTableEntry.empty ∧
        PageTableEntry.empty.is_valid = false) := by
  refine ⟨?_, ?_, ?_, ?_⟩
  · intro m root v h
    simp [PageTable.find_pte, h]
  · intro m root v h0 h1
    simp [PageTable.find_pte, h0, h1]
  · intro m root v h0 h1
    simp [PageTable.find_pte, h0, h1]
  · intro s pt v p f r hf hroot hnext h0 h1 hmap
    obtain ⟨hroot_eq, F1, F2, ha, hb, hc, hd, he, hne1, hne2, hne3⟩ :=
      map_path s pt v p f r hroot hnext h0 h1 hmap
    have hw : PageTable.find_pte_create r.1 r.2 v =
        ⟨r.1, r.2, F2, vpnIdx2 v⟩ := by
      simp [PageTable.find_pte_create, hroot_eq, ha, hb, hc, hd]
    have hleafv : (entryAt r.1.mem F2 (vpnIdx2 v)).is_valid = true := by
      rw [he]
      exact new_lor_V_valid p f hf
    refine ⟨(⟨memSet r.1.mem F2 (vpnIdx2 v) PageTableEntry.empty.bits,
      r.1.next⟩, r.2), ?_, ?_, empty_not_valid⟩
    · rw [unmap_eq, hw]
      dsimp only
      rw [if_pos hleafv]
    · unfold PageTable.translate
      dsimp only
      rw [hroot_eq]
      refine find_pte_of_path _ _ _ F1 F2 _ ?_ ?_ ?_ ?_ ?_
      · rw [entryAt_memSet_ne_frame _ _ _ _ _ _ (Ne.symm hne2)]
        exact ha
      · rw [entryAt_memSet_ne_frame _ _ _ _ _ _ (Ne.symm hne2)]
        exact hb
      · rw [entryAt_memSet_ne_frame _ _ _ _ _ _ (Ne.symm hne3)]
        exact hc
      · rw [entryAt_memSet_ne_frame _ _ _ _ _ _ (Ne.symm hne3)]
        exact hd
      · rw [entryAt_memSet_self, PageTableEntry.mk_bits]

/-- Witness for C2's amended theorem: part (i) at the all-zero memory, and
part (iv) on the demonstration machine, where after `map(0, 7, R)` and
`unmap(0)` the translation of page 0 is `some` of the empty entry. -/
theorem claim_C2_translate_not_mapped_witness :
    PageTable.find_pte (fun _ _ => 0) 0 0 = none ∧
    PageTable.translate demoUnmapped.1.mem demoUnmapped.2 0 =
      some PageTableEntry.empty := by
  obtain ⟨r2, hu, ht, -⟩ :=
    claim_C2_translate_not_mapped.2.2.2 demoState demoPT 0 7 2 demoMapped
      (by norm_num) (by decide) (by decide) (by decide) (by decide) rfl
  have hr2 : r2 = demoUnmapped := by
    have h2 : PageTable.unmap demoMapped.1 demoMapped.2 0 = some demoUnmapped :=
      rfl
    rw [hu] at h2
    exact Option.some.inj h2
  refine ⟨claim_C2_translate_not_mapped.1 (fun _ _ => 0) 0 0 (by decide), ?_⟩
  rw [← hr2]
  exact ht

section Invariant

theorem vpnIdx0_lt (v : Nat) : vpnIdx0 v < 512 := by
  unfold vpnIdx0
  have h := Nat.and_pow_two_sub_one_eq_mod (v >>> 18) 9
  norm_num at h
  omega

theorem vpnIdx1_lt (v : Nat) : vpnIdx1 v < 512 := by
  unfold vpnIdx1
  have h := Nat.and_pow_two_sub_one_eq_mod (v >>> 9) 9
  norm_num at h
  omega

theorem vpnIdx2_lt (v : Nat) : vpnIdx2 v < 512 := by
  unfold vpnIdx2
  have h := Nat.and_pow_two_sub_one_eq_mod v 9
  norm_num at h
  omega

theorem new_V_flags (a : Nat) :
    (PageTableEntry.new a PTEFlags.V).flags = PTEFlags.V := by
  rw [PTEFlags.V_eq]
  exact PageTableEntry.new_flags a 1 (by norm_num)

/-- Shape of the create-walk when both intermediate entries are valid:
no allocation, the leaf location is read off the existing path. -/
theorem fpc_both_valid (s : MachineState) (pt : PageTable) (v : Nat)
    (h0v : (entryAt s.mem pt.root_ppn (vpnIdx0 v)).is_valid = true)
    (h1v : (entryAt s.mem ((entryAt s.mem pt.root_ppn (vpnIdx0 v)).ppn)
      (vpnIdx1 v)).is_valid = true) :
    PageTable.find_pte_create s pt v =
      ⟨s, pt,
       (entryAt s.mem ((entryAt s.mem pt.root_ppn (vpnIdx0 v)).ppn)
         (vpnIdx1 v)).ppn, vpnIdx2 v⟩ := by
  simp [PageTable.find_pte_create, h0v, h1v]

/-- Shape of the create-walk when the first level is valid and the second is
not: one fresh frame is allocated and becomes the leaf-array frame. -/
theorem fpc_second_invalid (s : MachineState) (pt : PageTable) (v : Nat)
    (hnext : s.next < 2 ^ 44)
    (h0v : (entryAt s.mem pt.root_ppn (vpnIdx0 v)).is_valid = true)
    (h1v : ¬ (entryAt s.mem ((entryAt s.mem pt.root_ppn (vpnIdx0 v)).ppn)
      (vpnIdx1 v)).is_valid = true) :
    PageTable.find_pte_create s pt v =
      ⟨⟨memSet (zeroFrame s.mem s.next)
          ((entryAt s.mem pt.root_ppn (vpnIdx0 v)).ppn) (vpnIdx1 v)
          (PageTableEntry.new s.next PTEFlags.V).bits, s.next + 1⟩,
       ⟨pt.root_ppn, pt.frames ++ [s.next]⟩, s.next, vpnIdx2 v⟩ := by
  have hppn1 : (PageTableEntry.new s.next PTEFlags.V).ppn = s.next :=
    new_V_ppn s.next (by omega)
  simp [PageTable.find_pte_create, walkAllocStep, frame_alloc, h0v, h1v,
    entryAt_memSet_self, PageTableEntry.mk_bits, hppn1]

/-- Shape of the create-walk when the first level is invalid: two fresh
frames are allocated, a node frame and a leaf-array frame. -/
theorem fpc_first_invalid (s : MachineState) (pt : PageTable) (v : Nat)
    (hroot : pt.root_ppn < s.next)
    (hnext : s.next + 1 < 2 ^ 44)
    (h0v : ¬ (entryAt s.mem pt.root_ppn (vpnIdx0 v)).is_valid = true) :
    PageTable.find_pte_create s pt v =
      ⟨⟨memSet (zeroFrame (memSet (zeroFrame s.mem s.next) pt.root_ppn
            (vpnIdx0 v) (PageTableEntry.new s.next PTEFlags.V).bits)
            (s.next + 1)) s.next (vpnIdx1 v)
          (PageTableEntry.new (s.next + 1) PTEFlags.V).bits, s.next + 2⟩,
       ⟨pt.root_ppn, pt.frames ++ [s.next, s.next + 1]⟩,
       s.next + 1, vpnIdx2 v⟩ := by
  have hppn1 : (PageTableEntry.new s.next PTEFlags.V).ppn = s.next :=
    new_V_ppn s.next (by omega)
  have hppn2 : (PageTableEntry.new (s.next + 1) PTEFlags.V).ppn = s.next + 1 :=
    new_V_ppn (s.next + 1) (by omega)
  have hne_rn : pt.root_ppn ≠ s.next := by omega
  simp [PageTable.find_pte_create, walkAllocStep, frame_alloc, h0v,
    entryAt_memSet_self, PageTableEntry.mk_bits, hppn1, hppn2,
    entryAt_memSet_ne_frame _ _ _ _ _ _ (Ne.symm hne_rn),
    entryAt_zeroFrame_self, zero_entry_not_valid]

/-- Every valid intermediate entry of the table rooted at `root` — a
root-level entry, or an entry of a node frame a valid root-level entry
points to — carries exactly the Valid flag and no access-permission flags. -/
def InterOK (m : Mem) (root : Nat) : Prop :=
  ∀ i0, i0 < 512 → (entryAt m root i0).is_valid = true →
    (entryAt m root i0).flags = PTEFlags.V ∧
    ∀ i1, i1 < 512 →
      (entryAt m ((entryAt m root i0).ppn) i1).is_valid = true →
      (entryAt m ((entryAt m root i0).ppn) i1).flags = PTEFlags.V

/-- `fr` is a node frame of the table rooted at `root`: the root itself or a
frame a valid root-level entry points to. -/
def isNode (m : Mem) (root fr : Nat) : Prop :=
  fr = root ∨ ∃ i0, i0 < 512 ∧ (entryAt m root i0).is_valid = true ∧
    (entryAt m root i0).ppn = fr

/-- Overwriting the leaf slot returned by the create-walk — with any value —
preserves the intermediate-entry invariant, provided the table is well
formed: node frames lie below the allocator cursor, no node frame aliases
the root, and leaf-array frames alias no node frame. -/
theorem walk_write_preserves_interOK (s : MachineState) (pt : PageTable)
    (v : Nat)
    (hroot : pt.root_ppn < s.next)
    (hnext : s.next + 1 < 2 ^ 44)
    (hIOK : InterOK s.mem pt.root_ppn)
    (hlevel1 : ∀ i0, i0 < 512 →
      (entryAt s.mem pt.root_ppn i0).is_valid = true →
      (entryAt s.mem pt.root_ppn i0).ppn ≠ pt.root_ppn ∧
      (entryAt s.mem pt.root_ppn i0).ppn < s.next)
    (hsep : ∀ i0, i0 < 512 → ∀ i1, i1 < 512 →
      (entryAt s.mem pt.root_ppn i0).is_valid = true →
      (entryAt s.mem ((entryAt s.mem pt.root_ppn i0).ppn) i1).is_valid = true →
      ¬ isNode s.mem pt.root_ppn
        ((entryAt s.mem ((entryAt s.mem pt.root_ppn i0).ppn) i1).ppn))
    (val : Nat) :
    InterOK (memSet (PageTable.find_pte_create s pt v).st.mem
      (PageTable.find_pte_create s pt v).leaf_frame
      (PageTable.find_pte_create s pt v).leaf_idx val) pt.root_ppn := by
  by_cases h0v : (entryAt s.mem pt.root_ppn (vpnIdx0 v)).is_valid = true
  · by_cases h1v : (entryAt s.mem ((entryAt s.mem pt.root_ppn (vpnIdx0 v)).ppn)
        (vpnIdx1 v)).is_valid = true
    · -- no allocation: the leaf-array frame is separated from all node frames
      rw [fpc_both_valid s pt v h0v h1v]
      dsimp only
      have hsepI := hsep (vpnIdx0 v) (vpnIdx0_lt v) (vpnIdx1 v) (vpnIdx1_lt v)
        h0v h1v
      rw [isNode] at hsepI
      push_neg at hsepI
      intro j0 hj0 hv0
      have heq0 : entryAt (memSet s.mem
          ((entryAt s.mem ((entryAt s.mem pt.root_ppn (vpnIdx0 v)).ppn)
            (vpnIdx1 v)).ppn) (vpnIdx2 v) val) pt.root_ppn j0 =
          entryAt s.mem pt.root_ppn j0 :=
        entryAt_memSet_ne_frame _ _ _ _ _ _ (Ne.symm hsepI.1)
      rw [heq0] at hv0 ⊢
      refine ⟨(hIOK j0 hj0 hv0).1, ?_⟩
      intro j1 hj1 hv1
      have hPne := hsepI.2 j0 hj0 hv0
      have heq1 : entryAt (memSet s.mem
          ((entryAt s.mem ((entryAt s.mem pt.root_ppn (vpnIdx0 v)).ppn)
            (vpnIdx1 v)).ppn) (vpnIdx2 v) val)
          ((entryAt s.mem pt.root_ppn j0).ppn) j1 =
          entryAt s.mem ((entryAt s.mem pt.root_ppn j0).ppn) j1 :=
        entryAt_memSet_ne_frame _ _ _ _ _ _ hPne
      rw [heq1] at hv1 ⊢
      exact (hIOK j0 hj0 hv0).2 j1 hj1 hv1
    · -- a fresh leaf-array frame s.next is allocated
      rw [fpc_second_invalid s pt v (by omega) h0v h1v]
      dsimp only
      obtain ⟨hb0a, hb0b⟩ := hlevel1 (vpnIdx0 v) (vpnIdx0_lt v) h0v
      have hne_rn : pt.root_ppn ≠ s.next := by omega
      intro j0 hj0 hv0
      have heq0 : entryAt (memSet (memSet (zeroFrame s.mem s.next)
          ((entryAt s.mem pt.root_ppn (vpnIdx0 v)).ppn) (vpnIdx1 v)
          (PageTableEntry.new s.next PTEFlags.V).bits) s.next (vpnIdx2 v) val)
          pt.root_ppn j0 = entryAt s.mem pt.root_ppn j0 := by
        rw [entryAt_memSet_ne_frame _ _ _ _ _ _ hne_rn,
          entryAt_memSet_ne_frame _ _ _ _ _ _ (Ne.symm hb0a),
          entryAt_zeroFrame_ne _ _ _ _ hne_rn]
      rw [heq0] at hv0 ⊢
      refine ⟨(hIOK j0 hj0 hv0).1, ?_⟩
      intro j1 hj1 hv1
      obtain ⟨hPa, hPb⟩ := hlevel1 j0 hj0 hv0
      have hPn : (entryAt s.mem pt.root_ppn j0).ppn ≠ s.next := by omega
      by_cases hx : (entryAt s.mem pt.root_ppn j0).ppn =
          (entryAt s.mem pt.root_ppn (vpnIdx0 v)).ppn ∧ j1 = vpnIdx1 v
      · obtain ⟨hxa, hxb⟩ := hx
        subst hxb
        rw [entryAt_memSet_ne_frame _ _ _ _ _ _ hPn, hxa,
          entryAt_memSet_self, PageTableEntry.mk_bits] at hv1 ⊢
        exact new_V_flags s.next
      · have heq1 : entryAt (memSet (memSet (zeroFrame s.mem s.next)
            ((entryAt s.mem pt.root_ppn (vpnIdx0 v)).ppn) (vpnIdx1 v)
            (PageTableEntry.new s.next PTEFlags.V).bits) s.next (vpnIdx2 v) val)
            ((entryAt s.mem pt.root_ppn j0).ppn) j1 =
            entryAt s.mem ((entryAt s.mem pt.root_ppn j0).ppn) j1 := by
          rw [entryAt_memSet_ne_frame _ _ _ _ _ _ hPn]
          rcases not_and_or.mp hx with hxa | hxb
          · rw [entryAt_memSet_ne_frame _ _ _ _ _ _ hxa,
              entryAt_zeroFrame_ne _ _ _ _ hPn]
          · rw [entryAt_memSet_ne_idx _ _ _ _ _ _ hxb,
              entryAt_zeroFrame_ne _ _ _ _ hPn]
        rw [heq1] at hv1 ⊢
        exact (hIOK j0 hj0 hv0).2 j1 hj1 hv1
  · -- two fresh frames: node frame s.next, leaf-array frame s.next + 1
    rw [fpc_first_invalid s pt v hroot hnext h0v]
    dsimp only
    have hne_rn : pt.root_ppn ≠ s.next := by omega
    have hne_rn1 : pt.root_ppn ≠ s.next + 1 := by omega
    have hne_nn1 : s.next ≠ s.next + 1 := by omega
    have hppn1 : (PageTableEntry.new s.next PTEFlags.V).ppn = s.next :=
      new_V_ppn s.next (by omega)
    intro j0 hj0 hv0
    by_cases hx0 : j0 = vpnIdx0 v
    · subst hx0
      have heq0 : entryAt (memSet (memSet (zeroFrame (memSet
          (zeroFrame s.mem s.next) pt.root_ppn (vpnIdx0 v)
          (PageTableEntry.new s.next PTEFlags.V).bits) (s.next + 1)) s.next
          (vpnIdx1 v) (PageTableEntry.new (s.next + 1) PTEFlags.V).bits)
          (s.next + 1) (vpnIdx2 v) val) pt.root_ppn (vpnIdx0 v) =
          PageTableEntry.new s.next PTEFlags.V := by
        rw [entryAt_memSet_ne_frame _ _ _ _ _ _ hne_rn1,
          entryAt_memSet_ne_frame _ _ _ _ _ _ hne_rn,
          entryAt_zeroFrame_ne _ _ _ _ hne_rn1,
          entryAt_memSet_self, PageTableEntry.mk_bits]
      rw [heq0] at hv0 ⊢
      rw [hppn1]
      refine ⟨new_V_flags s.next, ?_⟩
      intro j1 hj1 hv1
      by_cases hx1 : j1 = vpnIdx1 v
      · subst hx1
        rw [entryAt_memSet_ne_frame _ _ _ _ _ _ hne_nn1,
          entryAt_memSet_self, PageTableEntry.mk_bits] at hv1 ⊢
        exact new_V_flags (s.next + 1)
      · have heq1 : entryAt (memSet (memSet (zeroFrame (memSet
            (zeroFrame s.mem s.next) pt.root_ppn (vpnIdx0 v)
            (PageTableEntry.new s.next PTEFlags.V).bits) (s.next + 1)) s.next
            (vpnIdx1 v) (PageTableEntry.new (s.next + 1) PTEFlags.V).bits)
            (s.next + 1) (vpnIdx2 v) val) s.next j1 = ⟨0⟩ := by
          rw [entryAt_memSet_ne_frame _ _ _ _ _ _ hne_nn1,
            entryAt_memSet_ne_idx _ _ _ _ _ _ hx1,
            entryAt_zeroFrame_ne _ _ _ _ hne_nn1,
            entryAt_memSet_ne_frame _ _ _ _ _ _ (Ne.symm hne_rn),
            entryAt_zeroFrame_self]
        rw [heq1, zero_entry_not_valid] at hv1
        simp at hv1
    · have heq0 : entryAt (memSet (memSet (zeroFrame (memSet
          (zeroFrame s.mem s.next) pt.root_ppn (vpnIdx0 v)
          (PageTableEntry.new s.next PTEFlags.V).bits) (s.next + 1)) s.next
          (vpnIdx1 v) (PageTableEntry.new (s.next + 1) PTEFlags.V).bits)
          (s.next + 1) (vpnIdx2 v) val) pt.root_ppn j0 =
          entryAt s.mem pt.root_ppn j0 := by
        rw [entryAt_memSet_ne_frame _ _ _ _ _ _ hne_rn1,
          entryAt_memSet_ne_frame _ _ _ _ _ _ hne_rn,
          entryAt_zeroFrame_ne _ _ _ _ hne_rn1,
          entryAt_memSet_ne_idx _ _ _ _ _ _ hx0,
          entryAt_zeroFrame_ne _ _ _ _ hne_rn]
      rw [heq0] at hv0 ⊢
      refine ⟨(hIOK j0 hj0 hv0).1, ?_⟩
      intro j1 hj1 hv1
      obtain ⟨hPa, hPb⟩ := hlevel1 j0 hj0 hv0
      have hPn : (entryAt s.mem pt.root_ppn j0).ppn ≠ s.next := by omega
      have hPn1 : (entryAt s.mem pt.root_ppn j0).ppn ≠ s.next + 1 := by omega
      have heq1 : entryAt (memSet (memSet (zeroFrame (memSet
          (zeroFrame s.mem s.next) pt.root_ppn (vpnIdx0 v)
          (PageTableEntry.new s.next PTEFlags.V).bits) (s.next + 1)) s.next
          (vpnIdx1 v) (PageTableEntry.new (s.next + 1) PTEFlags.V).bits)
          (s.next + 1) (vpnIdx2 v) val)
          ((entryAt s.mem pt.root_ppn j0).ppn) j1 =
          entryAt s.mem ((entryAt s.mem pt.root_ppn j0).ppn) j1 := by
        rw [entryAt_memSet_ne_frame _ _ _ _ _ _ hPn1,
          entryAt_memSet_ne_frame _ _ _ _ _ _ hPn,
          entryAt_zeroFrame_ne _ _ _ _ hPn1,
          entryAt_memSet_ne_frame _ _ _ _ _ _ hPa,
          entryAt_zeroFrame_ne _ _ _ _ hPn]
      rw [heq1] at hv1 ⊢
      exact (hIOK j0 hj0 hv0).2 j1 hj1 hv1

end Invariant

theorem entryAt_eq_of_mem (m : Mem) (g j b : Nat) (h : m g j = b) :
    entryAt m g j = ⟨b⟩ := by
  unfold entryAt
  rw [h]

/-- Entries changed by the create-walk that are valid carry exactly the
Valid flag: the walk writes only `new(fresh, V)` node entries and zeroed
(invalid) fresh-frame contents, never an access-permission bit. -/
theorem walk_changed_entries (s : MachineState) (pt : PageTable) (v g j : Nat)
    (hroot : pt.root_ppn < s.next) (hnext : s.next + 1 < 2 ^ 44)
    (hch : (PageTable.find_pte_create s pt v).st.mem g j ≠ s.mem g j)
    (hv : (entryAt (PageTable.find_pte_create s pt v).st.mem g j).is_valid
      = true) :
    (entryAt (PageTable.find_pte_create s pt v).st.mem g j).flags
      = PTEFlags.V := by
  by_cases h0v : (entryAt s.mem pt.root_ppn (vpnIdx0 v)).is_valid = true
  · by_cases h1v : (entryAt s.mem ((entryAt s.mem pt.root_ppn (vpnIdx0 v)).ppn)
        (vpnIdx1 v)).is_valid = true
    · rw [fpc_both_valid s pt v h0v h1v] at hch
      exact absurd rfl hch
    · rw [fpc_second_invalid s pt v (by omega) h0v h1v] at hch hv ⊢
      dsimp only at hch hv ⊢
      by_cases hx : g = (entryAt s.mem pt.root_ppn (vpnIdx0 v)).ppn ∧
          j = vpnIdx1 v
      · have hfinal : memSet (zeroFrame s.mem s.next)
            ((entryAt s.mem pt.root_ppn (vpnIdx0 v)).ppn) (vpnIdx1 v)
            (PageTableEntry.new s.next PTEFlags.V).bits g j =
            (PageTableEntry.new s.next PTEFlags.V).bits := by
          rw [hx.1, hx.2, memSet_self]
        rw [entryAt_eq_of_mem _ _ _ _ hfinal, PageTableEntry.mk_bits]
        exact new_V_flags s.next
      · have hraw : memSet (zeroFrame s.mem s.next)
            ((entryAt s.mem pt.root_ppn (vpnIdx0 v)).ppn) (vpnIdx1 v)
            (PageTableEntry.new s.next PTEFlags.V).bits g j =
            zeroFrame s.mem s.next g j := by
          rcases not_and_or.mp hx with hxa | hxb
          · exact memSet_ne_frame _ _ _ _ _ _ hxa
          · exact memSet_ne_idx _ _ _ _ _ _ hxb
        by_cases hz : g = s.next
        · have hfinal : memSet (zeroFrame s.mem s.next)
              ((entryAt s.mem pt.root_ppn (vpnIdx0 v)).ppn) (vpnIdx1 v)
              (PageTableEntry.new s.next PTEFlags.V).bits g j = 0 := by
            rw [hraw, hz, zeroFrame_self]
          rw [entryAt_eq_of_mem _ _ _ _ hfinal, zero_entry_not_valid] at hv
          exact absurd hv (by simp)
        · have hsame : memSet (zeroFrame s.mem s.next)
              ((entryAt s.mem pt.root_ppn (vpnIdx0 v)).ppn) (vpnIdx1 v)
              (PageTableEntry.new s.next PTEFlags.V).bits g j = s.mem g j := by
            rw [hraw, zeroFrame_ne _ _ _ _ hz]
          exact absurd hsame hch
  · rw [fpc_first_invalid s pt v hroot hnext h0v] at hch hv ⊢
    dsimp only at hch hv ⊢
    by_cases hx1 : g = s.next ∧ j = vpnIdx1 v
    · have hfinal : memSet (zeroFrame (memSet (zeroFrame s.mem s.next)
          pt.root_ppn (vpnIdx0 v) (PageTableEntry.new s.next PTEFlags.V).bits)
          (s.next + 1)) s.next (vpnIdx1 v)
          (PageTableEntry.new (s.next + 1) PTEFlags.V).bits g j =
          (PageTableEntry.new (s.next + 1) PTEFlags.V).bits := by
        rw [hx1.1, hx1.2, memSet_self]
      rw [entryAt_eq_of_mem _ _ _ _ hfinal, PageTableEntry.mk_bits]
      exact new_V_flags (s.next + 1)
    · have hraw1 : memSet (zeroFrame (memSet (zeroFrame s.mem s.next)
          pt.root_ppn (vpnIdx0 v) (PageTableEntry.new s.next PTEFlags.V).bits)
          (s.next + 1)) s.next (vpnIdx1 v)
          (PageTableEntry.new (s.next + 1) PTEFlags.V).bits g j =
          zeroFrame (memSet (zeroFrame s.mem s.next) pt.root_ppn (vpnIdx0 v)
            (PageTableEntry.new s.next PTEFlags.V).bits) (s.next + 1) g j := by
        rcases not_and_or.mp hx1 with hxa | hxb
        · exact memSet_ne_frame _ _ _ _ _ _ hxa
        · exact memSet_ne_idx _ _ _ _ _ _ hxb
      by_cases hz1 : g = s.next + 1
      · have hfinal : memSet (zeroFrame (memSet (zeroFrame s.mem s.next)
            pt.root_ppn (vpnIdx0 v) (PageTableEntry.new s.next PTEFlags.V).bits)
            (s.next + 1)) s.next (vpnIdx1 v)
            (PageTableEntry.new (s.next + 1) PTEFlags.V).bits g j = 0 := by
          rw [hraw1, hz1, zeroFrame_self]
        rw [entryAt_eq_of_mem _ _ _ _ hfinal, zero_entry_not_valid] at hv
        exact absurd hv (by simp)
      · have hraw2 : zeroFrame (memSet (zeroFrame s.mem s.next) pt.root_ppn
            (vpnIdx0 v) (PageTableEntry.new s.next PTEFlags.V).bits)
            (s.next + 1) g j =
            memSet (zeroFrame s.mem s.next) pt.root_ppn (vpnIdx0 v)
              (PageTableEntry.new s.next PTEFlags.V).bits g j :=
          zeroFrame_ne _ _ _ _ hz1
        by_cases hx0 : g = pt.root_ppn ∧ j = vpnIdx0 v
        · have hfinal : memSet (zeroFrame (memSet (zeroFrame s.mem s.next)
              pt.root_ppn (vpnIdx0 v) (PageTableEntry.new s.next PTEFlags.V).bits)
              (s.next + 1)) s.next (vpnIdx1 v)
              (PageTableEntry.new (s.next + 1) PTEFlags.V).bits g j =
              (PageTableEntry.new s.next PTEFlags.V).bits := by
            rw [hraw1, hraw2, hx0.1, hx0.2, memSet_self]
          rw [entryAt_eq_of_mem _ _ _ _ hfinal, PageTableEntry.mk_bits]
          exact new_V_flags s.next
        · have hraw3 : memSet (zeroFrame s.mem s.next) pt.root_ppn (vpnIdx0 v)
              (PageTableEntry.new s.next PTEFlags.V).bits g j =
              zeroFrame s.mem s.next g j := by
            rcases not_and_or.mp hx0 with hxa | hxb
            · exact memSet_ne_frame _ _ _ _ _ _ hxa
            · exact memSet_ne_idx _ _ _ _ _ _ hxb
          by_cases hz0 : g = s.next
          · have hfinal : memSet (zeroFrame (memSet (zeroFrame s.mem s.next)
                pt.root_ppn (vpnIdx0 v) (PageTableEntry.new s.next PTEFlags.V).bits)
                (s.next + 1)) s.next (vpnIdx1 v)
                (PageTableEntry.new (s.next + 1) PTEFlags.V).bits g j = 0 := by
              rw [hraw1, hraw2, hraw3, hz0, zeroFrame_self]
            rw [entryAt_eq_of_mem _ _ _ _ hfinal, zero_entry_not_valid] at hv
            exact absurd hv (by simp)
          · have hsame : memSet (zeroFrame (memSet (zeroFrame s.mem s.next)
                pt.root_ppn (vpnIdx0 v) (PageTableEntry.new s.next PTEFlags.V).bits)
                (s.next + 1)) s.next (vpnIdx1 v)
                (PageTableEntry.new (s.next + 1) PTEFlags.V).bits g j =
                s.mem g j := by
              rw [hraw1, hraw2, hraw3, zeroFrame_ne _ _ _ _ hz0]
            exact absurd hsame hch

/-- C9. Intermediate-entry invariant: (i) every intermediate entry written by
the create-walk carries exactly the Valid flag and no access-permission
flags — any memory location the walk changes that holds a valid entry holds
flags exactly `V`; (ii) `map` preserves the invariant that all valid
intermediate entries (root-level entries and entries of pointed-to node
frames) carry exactly `V`; (iii) `unmap` preserves it as well.  (`translate`
takes the memory immutably — its embedding `Mem → PageTable → Nat → Option
PageTableEntry` returns no state — so it preserves every state invariant by
construction.)  The preservation parts assume the table is well formed: node
frames lie below the allocator cursor, no node frame aliases the root, and
leaf-array frames alias no node frame. -/
theorem claim_C9_intermediate_entries :
    (∀ (s : MachineState) (pt : PageTable) (v : Nat),
      pt.root_ppn < s.next → s.next + 1 < 2 ^ 44 →
      ∀ g j,
        (PageTable.find_pte_create s pt v).st.mem g j ≠ s.mem g j →
        (entryAt (PageTable.find_pte_create s pt v).st.mem g j).is_valid
          = true →
        (entryAt (PageTable.find_pte_create s pt v).st.mem g j).flags
          = PTEFlags.V) ∧
    (∀ (s : MachineState) (pt : PageTable) (v p f : Nat)
        (r : MachineState × PageTable),
      pt.root_ppn < s.next → s.next + 1 < 2 ^ 44 →
      InterOK s.mem pt.root_ppn →
      (∀ i0, i0 < 512 → (entryAt s.mem pt.root_ppn i0).is_valid = true →
        (entryAt s.mem pt.root_ppn i0).ppn ≠ pt.root_ppn ∧
        (entryAt s.mem pt.root_ppn i0).ppn < s.next) →
      (∀ i0, i0 < 512 → ∀ i1, i1 < 512 →
        (entryAt s.mem pt.root_ppn i0).is_valid = true →
        (entryAt s.mem ((entryAt s.mem pt.root_ppn i0).ppn) i1).is_valid
          = true →
        ¬ isNode s.mem pt.root_ppn
          ((entryAt s.mem ((entryAt s.mem pt.root_ppn i0).ppn) i1).ppn)) →
      PageTable.map s pt v p f = some r →
      InterOK r.1.mem pt.root_ppn) ∧
    (∀ (s : MachineState) (pt : PageTable) (v : Nat)
        (r : MachineState × PageTable),
      pt.root_ppn < s.next → s.next + 1 < 2 ^ 44 →
      InterOK s.mem pt.root_ppn →
      (∀ i0, i0 < 512 → (entryAt s.mem pt.root_ppn i0).is_valid = true →
        (entryAt s.mem pt.root_ppn i0).ppn ≠ pt.root_ppn ∧
        (entryAt s.mem pt.root_ppn i0).ppn < s.next) →
      (∀ i0, i0 < 512 → ∀ i1, i1 < 512 →
        (entryAt s.mem pt.root_ppn i0).is_valid = true →
        (entryAt s.mem ((entryAt s.mem pt.root_ppn i0).ppn) i1).is_valid
          = true →
        ¬ isNode s.mem pt.root_ppn
          ((entryAt s.mem ((entryAt s.mem pt.root_ppn i0).ppn) i1).ppn)) →
      PageTable.unmap s pt v = some r →
      InterOK r.1.mem pt.root_ppn) := by
  refine ⟨?_, ?_, ?_⟩
  · intro s pt v hroot hnext g j hch hv
    exact walk_changed_entries s pt v g j hroot hnext hch hv
  · intro s pt v p f r hroot hnext hIOK hlevel1 hsep hmap
    rw [map_eq] at hmap
    by_cases hleaf : (entryAt (PageTable.find_pte_create s pt v).st.mem
        (PageTable.find_pte_create s pt v).leaf_frame
        (PageTable.find_pte_create s pt v).leaf_idx).is_valid = true
    · rw [if_pos hleaf] at hmap
      exact Option.noConfusion hmap
    · rw [if_neg hleaf, Option.some.injEq] at hmap
      subst hmap
      exact walk_write_preserves_interOK s pt v hroot hnext hIOK hlevel1 hsep _
  · intro s pt v r hroot hnext hIOK hlevel1 hsep hunmap
    rw [unmap_eq] at hunmap
    by_cases hleaf : (entryAt (PageTable.find_pte_create s pt v).st.mem
        (PageTable.find_pte_create s pt v).leaf_frame
        (PageTable.find_pte_create s pt v).leaf_idx).is_valid = true
    · rw [if_pos hleaf, Option.some.injEq] at hunmap
      subst hunmap
      exact walk_write_preserves_interOK s pt v hroot hnext hIOK hlevel1 hsep _
    · rw [if_neg hleaf] at hunmap
      exact Option.noConfusion hunmap

/-- Witness for C9 on the demonstration machine: `map(0, 7, R)` from the
all-zero state preserves the intermediate-entry invariant. -/
theorem claim_C9_intermediate_entries_witness :
    InterOK demoMapped.1.mem demoPT.root_ppn := by
  refine claim_C9_intermediate_entries.2.1 demoState demoPT 0 7 2 demoMapped
    (by decide) (by decide) ?_ ?_ ?_ rfl
  · intro i0 h hv
    rw [show entryAt demoState.mem demoPT.root_ppn i0 = ⟨0⟩ from rfl,
      zero_entry_not_valid] at hv
    exact absurd hv (by simp)
  · intro i0 h hv
    rw [show entryAt demoState.mem demoPT.root_ppn i0 = ⟨0⟩ from rfl,
      zero_entry_not_valid] at hv
    exact absurd hv (by simp)
  · intro i0 h i1 h1 hv
    rw [show entryAt demoState.mem demoPT.root_ppn i0 = ⟨0⟩ from rfl,
      zero_entry_not_valid] at hv
    exact absurd hv (by simp)

section Gather

/-- One gathered slice: the physical page number, the start byte offset
(inclusive) and the end byte offset (exclusive) within that physical page —
the embedding of one `&mut [u8]` element of the result vector. -/
abbrev Slice := Nat × Nat × Nat

/-- Embedding of the loop of `translated_byte_buffer`: while `start < end`,
translate the page containing `start` (`none` embeds the `unwrap` panic on a
failed translation), push the slice of that physical page from `start`'s page
offset up to the page end (when the step ends on a page boundary) or to
`end_va`'s page offset, and continue from `end_va`.  Page arithmetic
(`VirtAddr::floor`, `step`, `page_offset`) is modelled from the spec (§3):
`mm/address.rs` is not part of the source under review. -/
def tbbLoop (m : Mem) (root start e : Nat) : Option (List Slice) :=
  if _h : start < e then
    (PageTable.find_pte m root (start / PAGE_SIZE)).bind fun pte =>
      (tbbLoop m root (min ((start / PAGE_SIZE + 1) * PAGE_SIZE) e) e).map
        fun rest =>
          (if (min ((start / PAGE_SIZE + 1) * PAGE_SIZE) e) % PAGE_SIZE = 0
           then (pte.ppn, start % PAGE_SIZE, PAGE_SIZE)
           else (pte.ppn, start % PAGE_SIZE,
             (min ((start / PAGE_SIZE + 1) * PAGE_SIZE) e) % PAGE_SIZE)) :: rest
  else some []
termination_by e - start
decreasing_by
  simp only [PAGE_SIZE]
  omega

/-- Embedding of `translated_byte_buffer`: builds a `from_token` view of the
target address space and gathers the physical slices covering
`[ptr, ptr + len)`. -/
def translated_byte_buffer (m : Mem) (token ptr len : Nat) :
    Option (List Slice) :=
  tbbLoop m (PageTable.from_token token).root_ppn ptr (ptr + len)

/-- Specification-side description of the gather (spec §4.4 and §8), written
from the spec's words for comparison with `translated_byte_buffer`: exactly
one slice per virtual page covering `[a, e)`, in order; the first slice
starts at `a`'s page offset and later slices start at offset 0; each slice
ends at the page end except the last, which ends at `e`'s page offset when
`e` is not page-aligned. -/
def gatherSpec (m : Mem) (root a e : Nat) : List Slice :=
  (List.range' (a / PAGE_SIZE)
    ((e + (PAGE_SIZE - 1)) / PAGE_SIZE - a / PAGE_SIZE)).map
    fun pg =>
      (((PageTable.find_pte m root pg).getD PageTableEntry.empty).ppn,
       if pg = a / PAGE_SIZE then a % PAGE_SIZE else 0,
       if (pg + 1) * PAGE_SIZE ≤ e then PAGE_SIZE else e % PAGE_SIZE)

/-- The spec-side gather of a sub-range ending on its own start page. -/
theorem gatherSpec_last (m : Mem) (root a e : Nat) (ha : a < e)
    (hc : ¬ (a / PAGE_SIZE + 1) * PAGE_SIZE ≤ e) :
    gatherSpec m root a e =
      [(((PageTable.find_pte m root (a / PAGE_SIZE)).getD
          PageTableEntry.empty).ppn,
        a % PAGE_SIZE, e % PAGE_SIZE)] := by
  unfold gatherSpec
  have hcount : (e + (PAGE_SIZE - 1)) / PAGE_SIZE - a / PAGE_SIZE = 1 := by
    simp only [PAGE_SIZE] at hc ⊢
    omega
  rw [hcount, List.range'_succ]
  simp [hc]

/-- The spec-side gather of a range reaching past its start page splits off
the full head slice. -/
theorem gatherSpec_step (m : Mem) (root a e : Nat) (_ha : a < e)
    (hc : (a / PAGE_SIZE + 1) * PAGE_SIZE ≤ e) :
    gatherSpec m root a e =
      (((PageTable.find_pte m root (a / PAGE_SIZE)).getD
          PageTableEntry.empty).ppn,
        a % PAGE_SIZE, PAGE_SIZE) ::
      gatherSpec m root ((a / PAGE_SIZE + 1) * PAGE_SIZE) e := by
  unfold gatherSpec
  have hdiv : (a / PAGE_SIZE + 1) * PAGE_SIZE / PAGE_SIZE = a / PAGE_SIZE + 1 := by
    simp only [PAGE_SIZE]
    omega
  have hcount : (e + (PAGE_SIZE - 1)) / PAGE_SIZE - a / PAGE_SIZE =
      ((e + (PAGE_SIZE - 1)) / PAGE_SIZE -
        (a / PAGE_SIZE + 1) * PAGE_SIZE / PAGE_SIZE) + 1 := by
    simp only [PAGE_SIZE] at hc ⊢
    omega
  rw [hcount, List.range'_succ, List.map_cons, hdiv]
  have hhead : (if a / PAGE_SIZE = a / PAGE_SIZE then a % PAGE_SIZE else 0,
      if (a / PAGE_SIZE + 1) * PAGE_SIZE ≤ e then PAGE_SIZE
      else e % PAGE_SIZE) = (a % PAGE_SIZE, PAGE_SIZE) := by
    simp [hc]
  refine congrArg₂ _ (by simp [hc]) ?_
  refine List.map_congr_left ?_
  intro pg hpg
  rw [List.mem_range'] at hpg
  obtain ⟨i, hi, hpgi⟩ := hpg
  have h1 : ¬ pg = a / PAGE_SIZE := by omega
  have h2 : (if pg = a / PAGE_SIZE + 1
      then (a / PAGE_SIZE + 1) * PAGE_SIZE % PAGE_SIZE else 0) = 0 := by
    split
    · simp only [PAGE_SIZE]
      omega
    · rfl
  simp only [h1, if_false, h2]

/-- An aligned empty range gathers nothing. -/
theorem gatherSpec_aligned_nil (m : Mem) (root e : Nat)
    (he : e % PAGE_SIZE = 0) :
    gatherSpec m root e e = [] := by
  unfold gatherSpec
  have hcount : (e + (PAGE_SIZE - 1)) / PAGE_SIZE - e / PAGE_SIZE = 0 := by
    simp only [PAGE_SIZE] at he ⊢
    omega
  rw [hcount]
  rfl

/-- The gather loop agrees with the spec-side description whenever every
covered page translates. -/
theorem tbbLoop_spec (m : Mem) (root : Nat) (n : Nat) :
    ∀ start e, e - start ≤ n → start < e →
    (∀ pg, pg < (e + (PAGE_SIZE - 1)) / PAGE_SIZE → start / PAGE_SIZE ≤ pg →
      (PageTable.find_pte m root pg).isSome = true) →
    tbbLoop m root start e = some (gatherSpec m root start e) := by
  induction n with
  | zero =>
    intro start e h1 h2
    omega
  | succ n ih =>
    intro start e h1 h2 htr
    have hq : start / PAGE_SIZE < (e + (PAGE_SIZE - 1)) / PAGE_SIZE := by
      simp only [PAGE_SIZE]
      omega
    have hsome := htr (start / PAGE_SIZE) hq (Nat.le_refl _)
    obtain ⟨pte, hpte⟩ := Option.isSome_iff_exists.mp hsome
    have hgetD : (PageTable.find_pte m root (start / PAGE_SIZE)).getD
        PageTableEntry.empty = pte := by
      rw [hpte]
      rfl
    rw [tbbLoop]
    rw [dif_pos h2, hpte]
    simp only [Option.some_bind]
    by_cases hc : (start / PAGE_SIZE + 1) * PAGE_SIZE ≤ e
    · have hmin : min ((start / PAGE_SIZE + 1) * PAGE_SIZE) e =
          (start / PAGE_SIZE + 1) * PAGE_SIZE := Nat.min_eq_left hc
      have hal : (start / PAGE_SIZE + 1) * PAGE_SIZE % PAGE_SIZE = 0 := by
        simp only [PAGE_SIZE]
        omega
      rw [hmin, if_pos hal]
      by_cases hee : (start / PAGE_SIZE + 1) * PAGE_SIZE = e
      · have hrec : tbbLoop m root ((start / PAGE_SIZE + 1) * PAGE_SIZE) e =
            some [] := by
          rw [tbbLoop, dif_neg (by omega)]
        rw [hrec]
        rw [gatherSpec_step m root start e h2 hc, hgetD]
        rw [hee, gatherSpec_aligned_nil m root e (by
          rw [← hee]
          simp only [PAGE_SIZE]
          omega)]
        rfl
      · have hlt : (start / PAGE_SIZE + 1) * PAGE_SIZE < e := by omega
        have hstep : start < (start / PAGE_SIZE + 1) * PAGE_SIZE := by
          simp only [PAGE_SIZE]
          omega
        have hrec := ih ((start / PAGE_SIZE + 1) * PAGE_SIZE) e (by omega) hlt
          (by
            intro pg hpg hge
            refine htr pg hpg ?_
            have : start / PAGE_SIZE ≤
                (start / PAGE_SIZE + 1) * PAGE_SIZE / PAGE_SIZE := by
              simp only [PAGE_SIZE]
              omega
            omega)
        rw [hrec]
        rw [gatherSpec_step m root start e h2 hc, hgetD]
        rfl
    · have hmin : min ((start / PAGE_SIZE + 1) * PAGE_SIZE) e = e :=
        Nat.min_eq_right (by omega)
      have hnal : ¬ e % PAGE_SIZE = 0 := by
        simp only [PAGE_SIZE] at hc ⊢
        omega
      rw [hmin, if_neg hnal]
      have hrec : tbbLoop m root e e = some [] := by
        rw [tbbLoop, dif_neg (by omega)]
      rw [hrec]
      rw [gatherSpec_last m root start e h2 hc, hgetD]
      rfl

/-- The spec-side slice lengths sum to the byte length of the range. -/
theorem gatherSpec_sum (m : Mem) (root : Nat) (n : Nat) :
    ∀ a e, e - a ≤ n → a < e →
    ((gatherSpec m root a e).map fun sl => sl.2.2 - sl.2.1).sum = e - a := by
  induction n with
  | zero =>
    intro a e h1 h2
    omega
  | succ n ih =>
    intro a e h1 h2
    by_cases hc : (a / PAGE_SIZE + 1) * PAGE_SIZE ≤ e
    · rw [gatherSpec_step m root a e h2 hc]
      by_cases hee : (a / PAGE_SIZE + 1) * PAGE_SIZE = e
      · rw [hee, gatherSpec_aligned_nil m root e (by
          simp only [PAGE_SIZE] at hee ⊢
          omega)]
        simp only [List.map_cons, List.map_nil, List.sum_cons, List.sum_nil]
        simp only [PAGE_SIZE] at hee ⊢
        omega
      · have hlt : (a / PAGE_SIZE + 1) * PAGE_SIZE < e := by omega
        have hstep : a < (a / PAGE_SIZE + 1) * PAGE_SIZE := by
          simp only [PAGE_SIZE]
          omega
        have hrec := ih ((a / PAGE_SIZE + 1) * PAGE_SIZE) e (by omega) hlt
        simp only [List.map_cons, List.sum_cons, hrec]
        simp only [PAGE_SIZE] at hstep hc ⊢
        omega
    · rw [gatherSpec_last m root a e h2 hc]
      simp only [List.map_cons, List.map_nil, List.sum_cons, List.sum_nil]
      simp only [PAGE_SIZE] at hc ⊢
      omega

/-- C6. Gather correctness: for every address-space token, start address `a`
and length `L` such that every page covering `[a, a + L)` translates
successfully, `translated_byte_buffer` returns exactly one physical slice
per covered virtual page, in order — the first starting at `a`'s page
offset, each following slice starting at offset 0, each ending at the page
end except possibly the last, which ends at `(a + L)`'s page offset when
`a + L` is not page-aligned (this is the spec-side `gatherSpec`) — the slice
lengths sum to `L`, the number of slices is the number of covered pages, and
for `L = 0` the result is empty with no translation performed (it is
`some []` for every memory and token whatsoever). -/
theorem claim_C6_gather :
    (∀ (m : Mem) (token a : Nat),
      translated_byte_buffer m token a 0 = some []) ∧
    (∀ (m : Mem) (token a L : Nat), 0 < L →
      (∀ pg, pg < (a + L + (PAGE_SIZE - 1)) / PAGE_SIZE →
        a / PAGE_SIZE ≤ pg →
        (PageTable.find_pte m (PageTable.from_token token).root_ppn pg).isSome
          = true) →
      translated_byte_buffer m token a L =
        some (gatherSpec m (PageTable.from_token token).root_ppn a (a + L)) ∧
      ((gatherSpec m (PageTable.from_token token).root_ppn a (a + L)).map
        fun sl => sl.2.2 - sl.2.1).sum = L ∧
      (gatherSpec m (PageTable.from_token token).root_ppn a (a + L)).length =
        (a + L + (PAGE_SIZE - 1)) / PAGE_SIZE - a / PAGE_SIZE) := by
  constructor
  · intro m token a
    unfold translated_byte_buffer
    rw [tbbLoop, dif_neg (by omega)]
  · intro m token a L hL htr
    refine ⟨?_, ?_, ?_⟩
    · unfold translated_byte_buffer
      exact tbbLoop_spec m (PageTable.from_token token).root_ppn (a + L - a)
        a (a + L) (by omega) (by omega) htr
    · have h := gatherSpec_sum m (PageTable.from_token token).root_ppn
        (a + L - a) a (a + L) (by omega) (by omega)
      omega
    · unfold gatherSpec
      rw [List.length_map, List.length_range']

end Gather

/-- Witness for C6 on the demonstration machine: gathering 50 bytes starting
at virtual address 100 (one covered page, mapped to physical frame 7) and
gathering a zero-length range. -/
theorem claim_C6_gather_witness :
    translated_byte_buffer demoMapped.1.mem demoPT.token 100 0 = some [] ∧
    translated_byte_buffer demoMapped.1.mem demoPT.token 100 50 =
      some (gatherSpec demoMapped.1.mem
        (PageTable.from_token demoPT.token).root_ppn 100 (100 + 50)) ∧
    ((gatherSpec demoMapped.1.mem
        (PageTable.from_token demoPT.token).root_ppn 100 (100 + 50)).map
      fun sl => sl.2.2 - sl.2.1).sum = 50 := by
  refine ⟨claim_C6_gather.1 demoMapped.1.mem demoPT.token 100, ?_, ?_⟩
  · exact (claim_C6_gather.2 demoMapped.1.mem demoPT.token 100 50
      (by norm_num) (by decide)).1
  · exact (claim_C6_gather.2 demoMapped.1.mem demoPT.token 100 50
      (by norm_num) (by decide)).2.1

section Copyout

/-- Physical memory viewed through `PhysPageNum::get_bytes_array`: a function
from physical page number and byte offset to byte value.  Modelled from the
spec (§3): `mm/address.rs` is not part of the source under review. -/
abbrev BMem := Nat → Nat → Nat

/-- Embedding of `copyout`: builds a `from_token` view, translates the page
containing `dst_user_va` (`none` embeds the `unwrap` panic on a failed
translation), and bulk-copies `len` bytes from the kernel-resident source
into the destination physical page starting at the destination's page
offset.  An out-of-range byte window (`page_offset + len > PAGE_SIZE`, a
slice-bound panic in the source) is also embedded as `none`. -/
def copyout (bm : BMem) (m : Mem) (token dst_user_va : Nat) (src : Nat → Nat)
    (len : Nat) : Option BMem :=
  match PageTable.find_pte m (PageTable.from_token token).root_ppn
      (dst_user_va / PAGE_SIZE) with
  | none => none
  | some pte =>
    if dst_user_va % PAGE_SIZE + len ≤ PAGE_SIZE then
      some (fun g i =>
        if g = pte.ppn ∧ dst_user_va % PAGE_SIZE ≤ i ∧
            i < dst_user_va % PAGE_SIZE + len then
          src (i - dst_user_va % PAGE_SIZE)
        else bm g i)
    else none

/-- C7. Copy-out correctness under its single-page precondition: for every
token, destination virtual address `dst`, source, and length `len` such that
`page_offset(dst) + len ≤ PAGE_SIZE` and the page containing `dst`
translates successfully (to `pte`), `copyout` succeeds, translating the
destination page once, and the resulting byte memory holds exactly `len`
bytes of the source in the destination physical page starting at
`page_offset(dst)`, with every other byte of that page — and every byte of
every other page — unchanged. -/
theorem claim_C7_copyout (bm : BMem) (m : Mem) (token dst : Nat)
    (src : Nat → Nat) (len : Nat) (pte : PageTableEntry)
    (htr : PageTable.find_pte m (PageTable.from_token token).root_ppn
      (dst / PAGE_SIZE) = some pte)
    (hlen : dst % PAGE_SIZE + len ≤ PAGE_SIZE) :
    (copyout bm m token dst src len).isSome = true ∧
    (∀ i, dst % PAGE_SIZE ≤ i → i < dst % PAGE_SIZE + len →
      ((copyout bm m token dst src len).getD bm) pte.ppn i =
        src (i - dst % PAGE_SIZE)) ∧
    (∀ g i, g ≠ pte.ppn →
      ((copyout bm m token dst src len).getD bm) g i = bm g i) ∧
    (∀ i, i < dst % PAGE_SIZE ∨ dst % PAGE_SIZE + len ≤ i →
      ((copyout bm m token dst src len).getD bm) pte.ppn i =
        bm pte.ppn i) := by
  have hcp : copyout bm m token dst src len =
      some (fun g i =>
        if g = pte.ppn ∧ dst % PAGE_SIZE ≤ i ∧
            i < dst % PAGE_SIZE + len then
          src (i - dst % PAGE_SIZE)
        else bm g i) := by
    unfold copyout
    rw [htr]
    exact if_pos hlen
  rw [hcp]
  refine ⟨rfl, ?_, ?_, ?_⟩
  · intro i h1 h2
    simp [h1, h2]
  · intro g i hg
    simp [hg]
  · intro i hi
    simp only [Option.getD_some]
    rw [if_neg (by
      rintro ⟨-, h1, h2⟩
      omega)]

/-- Witness for C7 on the demonstration machine: copying 8 source bytes to
virtual address 100 of the mapped page lands them at offsets 100..107 of
physical frame 7 and leaves offset 99 untouched. -/
theorem claim_C7_copyout_witness :
    (copyout (fun _ _ => 0) demoMapped.1.mem demoPT.token 100
      (fun i => i + 1) 8).isSome = true ∧
    (∀ i, 100 % PAGE_SIZE ≤ i → i < 100 % PAGE_SIZE + 8 →
      ((copyout (fun _ _ => 0) demoMapped.1.mem demoPT.token 100
        (fun i => i + 1) 8).getD (fun _ _ => 0))
        (PageTableEntry.new 7 3).ppn i = (i - 100 % PAGE_SIZE) + 1) ∧
    (∀ i, i < 100 % PAGE_SIZE ∨ 100 % PAGE_SIZE + 8 ≤ i →
      ((copyout (fun _ _ => 0) demoMapped.1.mem demoPT.token 100
        (fun i => i + 1) 8).getD (fun _ _ => 0))
        (PageTableEntry.new 7 3).ppn i = 0) := by
  have h := claim_C7_copyout (fun _ _ => 0) demoMapped.1.mem demoPT.token 100
    (fun i => i + 1) 8 (PageTableEntry.new 7 3) rfl (by decide)
  exact ⟨h.1, h.2.1, fun i hi => h.2.2.2 i hi⟩

end Copyout

section Mmap

/-- Result of the `sys_mmap` entry: either an immediate return value (with
no kernel state touched) or delegation to the task module's `mmap` with the
computed address range (`mmap` lives in the `task` module, outside the
source under review). -/
inductive SyscallOutcome where
  | ret (v : Int)
  | call_mmap (start_va end_va port : Nat)
deriving DecidableEq

/-- Embedding of `sys_mmap` (`src/os4/src/syscall/process.rs`): reject when
`start` is not page-aligned (`VirtAddr::aligned`, modelled from the spec) or
`port` has a bit outside the low three (`_port & !0x7 != 0` on `usize`) or
`port` has no permission bit (`_port & 0x7 == 0`); succeed immediately when
`len == 0`; otherwise delegate to `mmap(start_va, start + len, port)`. -/
def sys_mmap (start len port : Nat) : SyscallOutcome :=
  if ¬ start % PAGE_SIZE = 0 ∨ port &&& (USIZE - 8) ≠ 0 ∨ port &&& 7 = 0 then
    .ret (-1)
  else if len = 0 then .ret 0
  else .call_mmap start (start + len) port

/-- C5. `sys_mmap` argument validation: for every `start`, `len`, `port`,
the call returns `-1` with no state change (an immediate `.ret`, before any
delegation) when `start` is not page-aligned, or `port` has any bit set
outside the low three permission bits, or `port` has none of those three
bits set; and when validation passes and `len = 0` it returns `0` without
mapping any page (again an immediate `.ret`, no delegation to `mmap`). -/
theorem claim_C5_mmap_validation (start len port : Nat) :
    (¬ start % PAGE_SIZE = 0 →
      sys_mmap start len port = .ret (-1)) ∧
    (port &&& (USIZE - 8) ≠ 0 →
      sys_mmap start len port = .ret (-1)) ∧
    (port &&& 7 = 0 →
      sys_mmap start len port = .ret (-1)) ∧
    (start % PAGE_SIZE = 0 → port &&& (USIZE - 8) = 0 → port &&& 7 ≠ 0 →
      len = 0 → sys_mmap start len port = .ret 0) := by
  refine ⟨?_, ?_, ?_, ?_⟩
  · intro h
    unfold sys_mmap
    rw [if_pos (Or.inl h)]
  · intro h
    unfold sys_mmap
    rw [if_pos (Or.inr (Or.inl h))]
  · intro h
    unfold sys_mmap
    rw [if_pos (Or.inr (Or.inr h))]
  · intro h1 h2 h3 h4
    unfold sys_mmap
    rw [if_neg (by
      rintro (hx | hx | hx)
      · exact hx h1
      · exact hx h2
      · exact h3 hx), if_pos h4]

/-- Witness for C5: an unaligned start, an out-of-range `port`, an empty
`port`, and the zero-length success. -/
theorem claim_C5_mmap_validation_witness :
    sys_mmap 1 4096 3 = .ret (-1) ∧
    sys_mmap 4096 4096 8 = .ret (-1) ∧
    sys_mmap 4096 4096 0 = .ret (-1) ∧
    sys_mmap 4096 0 3 = .ret 0 :=
  ⟨(claim_C5_mmap_validation 1 4096 3).1 (by decide),
   (claim_C5_mmap_validation 4096 4096 8).2.1 (by decide),
   (claim_C5_mmap_validation 4096 4096 0).2.2.1 (by decide),
   (claim_C5_mmap_validation 4096 0 3).2.2.2 (by decide) (by decide)
     (by decide) rfl⟩

end Mmap
